import Mathlib

/-!
# msgraph-drive: a verification development

A shallow embedding of the Go package `drive` (client.go, drive.go, error.go,
item.go, constants.go) and of the two front ends (cmd/server, cmd/lambda).

Conventions of the embedding.

* A Go `string` / `[]byte` is a Lean `String`.  The only byte-level operation
  of the package is `strings.Trim(path, "/")`; `'/'` is ASCII, so trimming by
  bytes and trimming by characters agree.
* A Go `error` is `Option GoError`, `none` being `nil`.
* Calls into the Go standard library whose results depend on the outside
  world (the HTTP round trip, the clock) or on a decoder that is not part of
  this repository (`json.Unmarshal`, `template.Execute`, `filepath.Dir`) are
  parameters of the embedding, so every theorem holds for all of them.
* Effects are made explicit: a function that talks to the network returns the
  list of `Event`s it produced, in order.
* The `sync.Mutex` of `Client` is not modelled: the embedding is sequential.
-/

namespace Graph

/-! ## constants.go -/

/-- The base URL used to acquire a token (constants.go, `LoginBaseURL`). -/
def LoginBaseURL : String := "https://login.microsoftonline.com"

/-- The base URL of all API calls (constants.go, `BaseURL`). -/
def BaseURL : String := "https://graph.microsoft.com"

/-- The API version (constants.go, `APIVersion`). -/
def APIVersion : String := "v1.0"

/-- The page size forced on every API call (constants.go, `MaxPageSize`). -/
def MaxPageSize : Int := 999

/-! ## Go standard library: strings -/

/-- Go `strings.trimLeftByte`: `for len(s) > 0 && s[0] == c { s = s[1:] }`. -/
def trimLeftByte (s : List Char) (c : Char) : List Char :=
  s.dropWhile (fun x => x == c)

/-- Go `strings.trimRightByte`:
`for len(s) > 0 && s[len(s)-1] == c { s = s[:len(s)-1] }`. -/
def trimRightByte (s : List Char) (c : Char) : List Char :=
  s.rdropWhile (fun x => x == c)

/-- Go `strings.Trim(s, cutset)` for a cutset of one ASCII character `c`:
`trimLeftByte(trimRightByte(s, c), c)`. -/
def Trim (s : String) (c : Char) : String :=
  ⟨trimLeftByte (trimRightByte s.data c) c⟩

/-! ## drive.go: resource paths -/

/-- The `switch` of `Drive.ListChildren` (drive.go): the resource handed to
`makeGETAPICall`, from the drive's `ID` and the `path` argument. -/
def listChildrenSource (id path : String) : String :=
  let path := Trim path '/'
  if path = "root" ∨ path = "" then
    "/drives/" ++ id ++ "/items/root/children"
  else
    "/drives/" ++ id ++ "/items/root:/" ++ path ++ ":/children"

/-- The `switch` of `Drive.Item` (drive.go): the resource handed to
`makeGETAPICall`, from the drive's `ID` and the `path` argument. -/
def itemSource (id path : String) : String :=
  let path := Trim path '/'
  if path = "root" ∨ path = "" then
    "/drives/" ++ id ++ "/items/root"
  else
    "/drives/" ++ id ++ "/root:/" ++ path

/-- The string `t` is `p` with all leading and trailing `'/'` removed: `p` is
`t` between two runs of `'/'`, and `t` neither starts nor ends with `'/'`. -/
def IsSlashTrimOf (p t : String) : Prop :=
  (∃ a b : Nat, p.data = List.replicate a '/' ++ t.data ++ List.replicate b '/') ∧
    t.data.head? ≠ some '/' ∧ t.data.getLast? ≠ some '/'

/-! ## Go standard library: net/url -/

/-- Go `url.shouldEscape(c, encodeQueryComponent)` on a byte: letters, digits
and `-`, `_`, `.`, `~` are kept, every other byte (the reserved characters
such as `$` included) is escaped. -/
def shouldEscapeQuery (b : Nat) : Bool :=
  !((97 ≤ b && b ≤ 122) || (65 ≤ b && b ≤ 90) || (48 ≤ b && b ≤ 57)
    || b == 45 || b == 95 || b == 46 || b == 126)

/-- Go `upperhex[n]`, `upperhex = "0123456789ABCDEF"`. -/
def upperhex (n : Nat) : Char :=
  "0123456789ABCDEF".data.getD n '0'

/-- Go `url.QueryEscape`, one byte: a space becomes `+`, a byte that must be
escaped becomes `%XX`, any other byte stays. -/
def escapeByte (b : Nat) : List Char :=
  if shouldEscapeQuery b then
    if b = 32 then ['+'] else ['%', upperhex (b / 16), upperhex (b % 16)]
  else [Char.ofNat b]

/-- Go `url.QueryEscape(s)`: the bytes of `s` (its UTF-8 encoding), each
through `escapeByte`. -/
def QueryEscape (s : String) : String :=
  ⟨(s.data.flatMap fun c => (String.utf8EncodeChar c).map fun b => b.toNat).flatMap escapeByte⟩

/-- Go `url.Values`, a `map[string][]string`: the keys of the list are
distinct. -/
abbrev Values := List (String × List String)

/-- Go `Values.Add(key, value)`: `v[key] = append(v[key], value)`. -/
def Values.Add : Values → String → String → Values
  | [], key, value => [(key, [value])]
  | (k, vs) :: rest, key, value =>
    if k = key then (k, vs ++ [value]) :: rest
    else (k, vs) :: Values.Add rest key value

/-- The pairs `key=value` of one key of `Values.Encode`, both escaped. -/
def encodeKey (kv : String × List String) : List String :=
  kv.2.map fun v => QueryEscape kv.1 ++ "=" ++ QueryEscape v

/-- Go `Values.Encode()`: the keys sorted (byte order), every value of a key
as `key=value`, both escaped, the pairs joined by `&`. -/
def Values.Encode (v : Values) : String :=
  "&".intercalate
    ((List.insertionSort (fun a b : String × List String => a.1.data ≤ b.1.data) v).flatMap
      encodeKey)

/-- The pairs `key=value` that `Values.Encode` joins: the keys sorted, every
value of a key, both escaped. -/
def Values.pairs (v : Values) : List String :=
  (List.insertionSort (fun a b : String × List String => a.1.data ≤ b.1.data) v).flatMap
    encodeKey

/-- The bytes of a Go string: the UTF-8 encoding of its characters. -/
def utf8Bytes (s : String) : List Nat :=
  s.data.flatMap fun c => (String.utf8EncodeChar c).map fun b => b.toNat

/-- Go `url.unhex` on a character that `url.ishex` accepts: the value of a
hexadecimal digit, of either case. -/
def unhex (c : Char) : Option Nat :=
  if '0' ≤ c ∧ c ≤ '9' then some (c.toNat - 48)
  else if 'a' ≤ c ∧ c ≤ 'f' then some (c.toNat - 97 + 10)
  else if 'A' ≤ c ∧ c ≤ 'F' then some (c.toNat - 65 + 10)
  else none

/-- Go `url.unescape(s, encodeQueryComponent)`: `%XX` is the byte `XX`, `+`
is a space, any other character stands for itself; `none` for a `%` that two
hexadecimal digits do not follow. -/
def unescape : List Char → Option (List Nat)
  | [] => some []
  | c :: rest =>
    if c = '%' then
      match rest with
      | a :: b :: rest2 =>
        match unhex a, unhex b, unescape rest2 with
        | some x, some y, some bs => some ((x * 16 + y) :: bs)
        | _, _, _ => none
      | _ => none
    else if c = '+' then (unescape rest).map (32 :: ·)
    else (unescape rest).map (((String.utf8EncodeChar c).map fun b => b.toNat) ++ ·)

/-- Go `url.QueryUnescape(s)`: the bytes of the string `s` stands for. -/
def QueryUnescape (s : String) : Option (List Nat) := unescape s.data

/-- Go `strings.Cut(s, sep)` for a separator of one character: the text
before the first `sep` and the text after it; all of `s` and nothing when
there is no `sep`. -/
def cut (sep : Char) : List Char → List Char × List Char
  | [] => ([], [])
  | c :: cs => if c = sep then ([], cs) else (c :: (cut sep cs).1, (cut sep cs).2)

/-- The loop of Go `url.parseQuery`: the query is cut at each `&`, a part
with a `;` or with a bad escape is an error, an empty part is skipped, any
other part is cut at its first `=` and both sides unescaped.  The result is
the pairs read, in order, and whether an error is returned. -/
def parseQuery : Nat → List Char → List (List Nat × List Nat) × Bool
  | 0, _ => ([], true)
  | fuel + 1, query =>
    if query = [] then ([], false)
    else
      let key := (cut '&' query).1
      let r := parseQuery fuel (cut '&' query).2
      if ';' ∈ key then (r.1, true)
      else if key = [] then r
      else
        match unescape (cut '=' key).1, unescape (cut '=' key).2 with
        | some k, some v => ((k, v) :: r.1, r.2)
        | _, _ => (r.1, true)

/-- Go `url.ParseQuery(query)`, what the receiver of a request reads from its
query string: the parameters as pairs of bytes, in the order of the query,
and whether an error is returned.  Every round takes a character, so the fuel
is never spent. -/
def ParseQuery (query : String) : List (List Nat × List Nat) × Bool :=
  parseQuery (query.data.length + 1) query.data

/-! ## error.go -/

/-- The `innerError` block of the error envelope (error.go). -/
structure InnerError where
  Date : String
  RequestID : String
  ClientRequestID : String
  deriving DecidableEq, Repr

/-- The field `Err` of `ReqError` (error.go), JSON key `error`: the only part
of a `ReqError` that `encoding/json` reads or writes. -/
structure ErrBody where
  Code : String
  Message : String
  InnerError : InnerError
  deriving DecidableEq, Repr

/-- The struct `ReqError` (error.go).  `URL`, `StatusCode` and `Raw` carry the
tag `json:"-"` and `notValid` is unexported: none of the four is a JSON
field. -/
structure ReqError where
  URL : String
  StatusCode : Int
  Err : ErrBody
  notValid : Bool
  Raw : String
  deriving DecidableEq, Repr

/-- A Go `error` value of this program. -/
inductive GoError where
  /-- an error made by the standard library (net/http, io, encoding/json) -/
  | lib (msg : String)
  /-- a `*drive.ReqError` -/
  | req (e : ReqError)
  /-- the result of `fmt.Errorf(format)`, no error among the arguments -/
  | errorf0 (format : String)
  /-- the result of `fmt.Errorf(format, err, ...)` with the verb `%v`: a plain
  `*errors.errorString` that only keeps the text of `err` -/
  | errorf (format : String) (cause : GoError)
  deriving DecidableEq, Repr

/-- The effect of `json.Unmarshal(data, &v)` on a destination of type `α`:
the destination after the call and the error returned. -/
abbrev Unmarshal (α : Type) := String → α → α × Option GoError

/-- The zero value of `ErrBody`. -/
def ErrBody.zero : ErrBody := ⟨"", "", ⟨"", "", ""⟩⟩

/-- The function `NewErr` (error.go).  `unmarshal` is `json.Unmarshal` on the
JSON-visible part of a `*ReqError`, its field `Err`. -/
def NewErr (unmarshal : Unmarshal ErrBody) (statusCode : Int) (body : String) : ReqError :=
  let e : ReqError :=
    { URL := "", StatusCode := statusCode, Err := ErrBody.zero, notValid := false, Raw := body }
  let r := unmarshal body e.Err
  let e := { e with Err := r.1 }
  match r.2 with
  | some _ => { e with notValid := true }
  | none => e

/-! ## Go standard library: encoding/json on a `*ReqError`

A model of `json.Unmarshal(body, e)` for `e` a `*ReqError`: the scanner of
encoding/json (RFC 8259 with the nesting limit of the package), and the
decoding of the value into the one JSON field of the struct, `Err`. -/

namespace Json

/-- A JSON token. -/
inductive Tok where
  | lbrace | rbrace | lbrack | rbrack | colon | comma
  | str (s : String)
  | num
  | tru | fls | nul
  deriving DecidableEq, Repr

/-- A JSON value; the text of a number is not kept, no field of `ReqError`
being a number. -/
inductive Value where
  | null
  | bool (b : Bool)
  | number
  | string (s : String)
  | array (xs : List Value)
  | object (kvs : List (String × Value))
  deriving Repr

/-- The value of a hexadecimal digit. -/
def hexVal (c : Char) : Option Nat :=
  if '0' ≤ c ∧ c ≤ '9' then some (c.toNat - 48)
  else if 'a' ≤ c ∧ c ≤ 'f' then some (c.toNat - 87)
  else if 'A' ≤ c ∧ c ≤ 'F' then some (c.toNat - 55)
  else none

/-- Go `getu4` past the `\u`: the number four hexadecimal digits stand for. -/
def hex4 (a b c d : Char) : Option Nat :=
  match hexVal a, hexVal b, hexVal c, hexVal d with
  | some x, some y, some z, some w => some (((x * 16 + y) * 16 + z) * 16 + w)
  | _, _, _, _ => none

/-- The rune an escape `\uXXXX` of value `r` stands for, and the text left,
as Go `unquote` has it: a surrogate followed by an escape that completes the
pair takes both, any other surrogate is U+FFFD. -/
def unescapeU (r : Nat) (rest : List Char) : Char × List Char :=
  if 0xD800 ≤ r ∧ r < 0xE000 then
    match rest with
    | '\\' :: 'u' :: a :: b :: c :: d :: rest2 =>
      match hex4 a b c d with
      | some r2 =>
        if r < 0xDC00 ∧ 0xDC00 ≤ r2 ∧ r2 < 0xE000 then
          (Char.ofNat ((r - 0xD800) * 1024 + (r2 - 0xDC00) + 0x10000), rest2)
        else (Char.ofNat 0xFFFD, rest)
      | none => (Char.ofNat 0xFFFD, rest)
    | _ => (Char.ofNat 0xFFFD, rest)
  else (Char.ofNat r, rest)

/-- The rest of a string literal, after its opening quote: the string and the
text after the closing quote.  `acc` holds the characters read, last first. -/
def lexString : Nat → List Char → List Char → Option (String × List Char)
  | 0, _, _ => none
  | _ + 1, [], _ => none
  | fuel + 1, c :: cs, acc =>
    if c = '"' then some (⟨acc.reverse⟩, cs)
    else if c = '\\' then
      match cs with
      | [] => none
      | e :: cs2 =>
        if e = '"' ∨ e = '\\' ∨ e = '/' then lexString fuel cs2 (e :: acc)
        else if e = 'b' then lexString fuel cs2 (Char.ofNat 8 :: acc)
        else if e = 'f' then lexString fuel cs2 (Char.ofNat 12 :: acc)
        else if e = 'n' then lexString fuel cs2 ('\n' :: acc)
        else if e = 'r' then lexString fuel cs2 ('\r' :: acc)
        else if e = 't' then lexString fuel cs2 ('\t' :: acc)
        else if e = 'u' then
          match cs2 with
          | a :: b :: c2 :: d :: cs3 =>
            match hex4 a b c2 d with
            | some r => lexString fuel (unescapeU r cs3).2 ((unescapeU r cs3).1 :: acc)
            | none => none
          | _ => none
        else none
    else if c.toNat < 32 then none
    else lexString fuel cs (c :: acc)

/-- The digits at the head of a text, dropped. -/
def dropDigits (cs : List Char) : List Char :=
  cs.dropWhile fun c => decide ('0' ≤ c ∧ c ≤ '9')

/-- Whether a text starts with a digit. -/
def startsWithDigit : List Char → Bool
  | c :: _ => decide ('0' ≤ c ∧ c ≤ '9')
  | [] => false

/-- The exponent part of a number, if there is one, dropped. -/
def dropExponent (cs : List Char) : Option (List Char) :=
  match cs with
  | e :: rest =>
    if e = 'e' ∨ e = 'E' then
      let rest := match rest with
        | s :: rest2 => if s = '+' ∨ s = '-' then rest2 else rest
        | [] => rest
      if startsWithDigit rest then some (dropDigits rest) else none
    else some cs
  | [] => some cs

/-- The fraction part of a number, if there is one, dropped. -/
def dropFraction (cs : List Char) : Option (List Char) :=
  match cs with
  | '.' :: rest => if startsWithDigit rest then some (dropDigits rest) else none
  | _ => some cs

/-- A number at the head of a text, dropped: an optional `-`, then `0` or a
digit from 1 to 9 and digits, then a fraction and an exponent, both
optional. -/
def lexNumber (cs : List Char) : Option (List Char) :=
  let cs := match cs with
    | '-' :: rest => rest
    | _ => cs
  match cs with
  | c :: rest =>
    if c = '0' then (dropFraction rest).bind dropExponent
    else if '1' ≤ c ∧ c ≤ '9' then (dropFraction (dropDigits rest)).bind dropExponent
    else none
  | [] => none

/-- The text after the word `w`, when the text starts with it. -/
def dropWord (w : List Char) (cs : List Char) : Option (List Char) :=
  if w.isPrefixOf cs then some (cs.drop w.length) else none

/-- The tokens of a text; `none` for a text that no sequence of tokens
spells. -/
def lex : Nat → List Char → Option (List Tok)
  | 0, _ => none
  | _ + 1, [] => some []
  | fuel + 1, c :: cs =>
    if c = ' ' ∨ c = '\t' ∨ c = '\r' ∨ c = '\n' then lex fuel cs
    else if c = '{' then (lex fuel cs).map (.lbrace :: ·)
    else if c = '}' then (lex fuel cs).map (.rbrace :: ·)
    else if c = '[' then (lex fuel cs).map (.lbrack :: ·)
    else if c = ']' then (lex fuel cs).map (.rbrack :: ·)
    else if c = ':' then (lex fuel cs).map (.colon :: ·)
    else if c = ',' then (lex fuel cs).map (.comma :: ·)
    else if c = '"' then
      match lexString (cs.length + 1) cs [] with
      | some (s, rest) => (lex fuel rest).map (.str s :: ·)
      | none => none
    else if c = 't' then
      match dropWord ['r', 'u', 'e'] cs with
      | some rest => (lex fuel rest).map (.tru :: ·)
      | none => none
    else if c = 'f' then
      match dropWord ['a', 'l', 's', 'e'] cs with
      | some rest => (lex fuel rest).map (.fls :: ·)
      | none => none
    else if c = 'n' then
      match dropWord ['u', 'l', 'l'] cs with
      | some rest => (lex fuel rest).map (.nul :: ·)
      | none => none
    else
      match lexNumber (c :: cs) with
      | some rest => (lex fuel rest).map (.num :: ·)
      | none => none

/-- What the parser is reading: a value, the rest of an array, or the rest of
an object. -/
inductive Mode where
  | value
  | elems (acc : List Value)
  | members (acc : List (String × Value))

/-- Go `maxNestingDepth`: arrays and objects nest this deep at most. -/
def maxNestingDepth : Nat := 10000

/-- The parser: the value read and the tokens left. -/
def parse : Nat → Nat → Mode → List Tok → Option (Value × List Tok)
  | 0, _, _, _ => none
  | fuel + 1, depth, .value, toks =>
    match toks with
    | .nul :: r => some (.null, r)
    | .tru :: r => some (.bool true, r)
    | .fls :: r => some (.bool false, r)
    | .num :: r => some (.number, r)
    | .str s :: r => some (.string s, r)
    | .lbrack :: r =>
      if depth + 1 > maxNestingDepth then none
      else match r with
        | .rbrack :: r2 => some (.array [], r2)
        | _ => parse fuel (depth + 1) (.elems []) r
    | .lbrace :: r =>
      if depth + 1 > maxNestingDepth then none
      else match r with
        | .rbrace :: r2 => some (.object [], r2)
        | _ => parse fuel (depth + 1) (.members []) r
    | _ => none
  | fuel + 1, depth, .elems acc, toks =>
    match parse fuel depth .value toks with
    | some (v, .comma :: r) => parse fuel depth (.elems (v :: acc)) r
    | some (v, .rbrack :: r) => some (.array (v :: acc).reverse, r)
    | _ => none
  | fuel + 1, depth, .members acc, toks =>
    match toks with
    | .str k :: .colon :: r =>
      match parse fuel depth .value r with
      | some (v, .comma :: r2) => parse fuel depth (.members ((k, v) :: acc)) r2
      | some (v, .rbrace :: r2) => some (.object ((k, v) :: acc).reverse, r2)
      | _ => none
    | _ => none

/-- The value a text spells, `none` for a text that is not valid JSON (Go
`checkValid`).  The fuel is enough for every text: a step of `lex` takes a
character, and of two steps of `parse` one takes a token. -/
def parseText (data : String) : Option Value :=
  match lex (data.data.length + 1) data.data with
  | none => none
  | some toks =>
    match parse (2 * toks.length + 2) 0 .value toks with
    | some (v, []) => some v
    | _ => none

/-- Go `foldRune` on the characters that can meet an ASCII letter: a small
letter gives its capital, the Kelvin sign gives `K`, the long s gives `S`. -/
def foldChar (c : Char) : Char :=
  if 'a' ≤ c ∧ c ≤ 'z' then Char.ofNat (c.toNat - 32)
  else if c.toNat = 0x212A then 'K'
  else if c.toNat = 0x17F then 'S'
  else c

/-- Whether the key of an object names the field `field` of a struct: the two
are equal once folded.  (No two fields of a struct here fold to the same
name, so an exact match has no precedence to claim.) -/
def keyIs (field key : String) : Bool :=
  key.data.map foldChar == field.data.map foldChar

/-- The error encoding/json saves when a value does not fit its destination
(`*json.UnmarshalTypeError`). -/
def typeError : GoError := .lib "json: cannot unmarshal value into Go struct field"

/-- The error encoding/json returns for a text that is not valid JSON
(`*json.SyntaxError`). -/
def syntaxError : GoError := .lib "json: invalid character or unexpected end of JSON input"

/-- Go `d.saveError`: the first error is the one kept. -/
def saveError (saved : Option GoError) (e : GoError) : Option GoError :=
  match saved with
  | some s => some s
  | none => some e

/-- A value decoded into a field of type `string`: a string is stored, `null`
changes nothing, anything else is a type error and changes nothing. -/
def storeString (v : Value) (dst : String) (saved : Option GoError) :
    String × Option GoError :=
  match v with
  | .string s => (s, saved)
  | .null => (dst, saved)
  | _ => (dst, saveError saved typeError)

/-- A member of an object decoded into the struct `InnerError`. -/
def innerMember (st : InnerError × Option GoError) (kv : String × Value) :
    InnerError × Option GoError :=
  if keyIs "date" kv.1 then
    let r := storeString kv.2 st.1.Date st.2
    ({ st.1 with Date := r.1 }, r.2)
  else if keyIs "request-id" kv.1 then
    let r := storeString kv.2 st.1.RequestID st.2
    ({ st.1 with RequestID := r.1 }, r.2)
  else if keyIs "client-request-id" kv.1 then
    let r := storeString kv.2 st.1.ClientRequestID st.2
    ({ st.1 with ClientRequestID := r.1 }, r.2)
  else st

/-- A value decoded into a field of type `InnerError`: the members of an
object in order, `null` changes nothing, anything else is a type error. -/
def storeInner (v : Value) (dst : InnerError) (saved : Option GoError) :
    InnerError × Option GoError :=
  match v with
  | .object kvs => kvs.foldl innerMember (dst, saved)
  | .null => (dst, saved)
  | _ => (dst, saveError saved typeError)

/-- A member of an object decoded into the struct of the field `Err`. -/
def errMember (st : ErrBody × Option GoError) (kv : String × Value) :
    ErrBody × Option GoError :=
  if keyIs "code" kv.1 then
    let r := storeString kv.2 st.1.Code st.2
    ({ st.1 with Code := r.1 }, r.2)
  else if keyIs "message" kv.1 then
    let r := storeString kv.2 st.1.Message st.2
    ({ st.1 with Message := r.1 }, r.2)
  else if keyIs "innerError" kv.1 then
    let r := storeInner kv.2 st.1.InnerError st.2
    ({ st.1 with InnerError := r.1 }, r.2)
  else st

/-- A value decoded into the field `Err`. -/
def storeErr (v : Value) (dst : ErrBody) (saved : Option GoError) :
    ErrBody × Option GoError :=
  match v with
  | .object kvs => kvs.foldl errMember (dst, saved)
  | .null => (dst, saved)
  | _ => (dst, saveError saved typeError)

/-- A member of an object decoded into a `ReqError`, whose one JSON field is
`Err`, under the key `error`. -/
def envelopeMember (st : ErrBody × Option GoError) (kv : String × Value) :
    ErrBody × Option GoError :=
  if keyIs "error" kv.1 then storeErr kv.2 st.1 st.2 else st

/-- Go `json.Unmarshal(body, e)` for `e` a `*ReqError`, on the field `Err` of
`e`: a text that is not valid JSON is a syntax error and changes nothing;
otherwise the value is decoded, and the first type error met is returned. -/
def unmarshalReqError : Unmarshal ErrBody := fun body dst =>
  match parseText body with
  | none => (dst, some syntaxError)
  | some (.object kvs) => kvs.foldl envelopeMember (dst, none)
  | some .null => (dst, none)
  | some _ => (dst, some typeError)

end Json

/-! ## item.go -/

/-- The struct `User` (item.go). -/
structure User where
  Email : String
  ID : String
  DisplayName : String
  deriving DecidableEq, Repr

/-- The struct `Reference` (item.go). -/
structure Reference where
  DriveID : String
  DriveType : String
  ID : String
  Path : String
  deriving DecidableEq, Repr

/-- The struct `Item` (item.go).  A `time.Time` is a number of seconds; a
facet (`*struct`) is an `Option`, `none` being `nil`. -/
structure Item where
  CreatedAt : Int
  ID : String
  LastMod : Int
  Name : String
  WebURL : String
  Size : Int
  CreatedBy : User
  LastModifiedBy : User
  ParentReference : Reference
  FileSystemCreated : Int
  FileSystemLastModified : Int
  /-- the facet `Folder`, holding `ChildCount` -/
  Folder : Option Int
  DownloadURL : String
  /-- the facet `File`, holding `MimeType` -/
  File : Option String
  /-- the facet `Image`, holding `Height` and `Width` -/
  Image : Option (Int × Int)
  deriving DecidableEq, Repr

/-- The method `Item.IsFolder` (item.go): `item.Folder != nil`. -/
def Item.IsFolder (item : Item) : Bool := item.Folder.isSome

/-- The zero value of `Item` (`&Item{}`). -/
def Item.zero : Item :=
  { CreatedAt := 0, ID := "", LastMod := 0, Name := "", WebURL := "", Size := 0,
    CreatedBy := ⟨"", "", ""⟩, LastModifiedBy := ⟨"", "", ""⟩,
    ParentReference := ⟨"", "", "", ""⟩, FileSystemCreated := 0, FileSystemLastModified := 0,
    Folder := none, DownloadURL := "", File := none, Image := none }

/-! ## The token -/

/-- Modelled from the spec: the type `Token` and its methods, whose file is
not among the sources.  It "holds an access-token string, a not valid before
timestamp, and an expiry timestamp"; a timestamp is a number of seconds. -/
structure Token where
  AccessToken : String
  NotBefore : Int
  ExpiresOn : Int
  deriving DecidableEq, Repr

/-- The zero value of `Token` (`var newToken Token`). -/
def Token.zero : Token := ⟨"", 0, 0⟩

/-- Modelled from the spec: `Token.WantsToBeRefreshed`, which is not among the
sources: "`isStale(now) -> bool`: `now < notBefore || now >= expiresOn`". -/
def Token.WantsToBeRefreshed (t : Token) (now : Int) : Bool :=
  decide (now < t.NotBefore) || decide (now ≥ t.ExpiresOn)

/-- Modelled from the spec: `Token.GetAccessToken`, which is not among the
sources: "returns the value to attach as the `Authorization` header (the raw
token string as returned by the credential exchange)". -/
def Token.GetAccessToken (t : Token) : String := t.AccessToken

/-! ## client.go -/

/-- The struct `Client` (client.go), without its mutex. -/
structure Client where
  TenantID : String
  ApplicationID : String
  ClientSecret : String
  token : Token
  deriving DecidableEq, Repr

/-- An `*http.Request` as this package builds it: the method, the URL in three
parts (`Base` is scheme and host, `Path` the unescaped path, `RawQuery` the
encoded query), the headers in the order they were added, and the body. -/
structure Request where
  Method : String
  Base : String
  Path : String
  RawQuery : String
  Header : List (String × String)
  Body : String
  deriving DecidableEq, Repr

/-- What `httpClient.Do(req)` followed by `ioutil.ReadAll(resp.Body)` gives. -/
inductive DoResult where
  /-- `Do` returned an error: no response -/
  | fail (err : String)
  /-- `Do` returned a response with this status; `ReadAll` returned `body` and
  `readErr` -/
  | resp (StatusCode : Int) (body : String) (readErr : Option String)
  deriving DecidableEq, Repr

/-- The observable steps of a run, in order. -/
inductive Event where
  /-- `makeGETAPICall` was entered with this resource -/
  | apiCall (apicall : String)
  /-- `refreshToken` was entered -/
  | refresh
  /-- `httpClient.Do(req)` was called: a request went to the network -/
  | httpDo (req : Request)
  /-- `NewErr(statusCode, body)` was called -/
  | newErr (statusCode : Int) (body : String)
  /-- `performRequest` called `json.Unmarshal(body, &v)` on its argument `v` -/
  | unmarshal (body : String)
  deriving DecidableEq, Repr

/-- The world outside the package: the network and the clock, both free to
depend on what happened before, and `json.Unmarshal` on `*ReqError`. -/
structure Lib where
  /-- the outcome of `httpClient.Do(req)` and of reading the body -/
  Do : List Event → Request → DoResult
  /-- the result of `time.Now()`, in seconds -/
  Now : List Event → Int
  /-- `json.Unmarshal` on the JSON-visible part of a `*ReqError` -/
  jsonReqError : Unmarshal ErrBody
  /-- `json.Unmarshal` on a `*Token` -/
  jsonToken : Unmarshal Token
  /-- `json.Unmarshal` on the envelope of `ListChildren`, a struct whose one
  field is `Items []*Item` under the key `value`; the items it yields are
  taken to be non-nil -/
  jsonItems : Unmarshal (List Item)
  /-- `json.Unmarshal` on an `*Item` -/
  jsonItem : Unmarshal Item

/-- What a function with an `error` result leaves behind: the error, the
values it computed or changed, and the events so far. -/
structure Ret (α : Type) where
  err : Option GoError
  val : α
  events : List Event

/-- The method `Client.performRequest` (client.go).  `unmarshal` is
`json.Unmarshal` on the type of the destination `v`; `tr` holds the events
before the call. -/
def performRequest {α : Type} (L : Lib) (unmarshal : Unmarshal α) (req : Request) (v : α)
    (tr : List Event) : Ret α :=
  match L.Do tr req with
  | .fail err =>
    ⟨some (.errorf "HTTP response error: %v of http.Request: %v" (.lib err)), v,
      tr ++ [.httpDo req]⟩
  | .resp statusCode body readErr =>
    if statusCode < 200 ∨ statusCode > 299 then
      ⟨some (.req (NewErr L.jsonReqError statusCode body)), v,
        tr ++ [.httpDo req, .newErr statusCode body]⟩
    else
      match readErr with
      | some err =>
        ⟨some (.errorf "HTTP response read error: %v of http.Request: %v" (.lib err)), v,
          tr ++ [.httpDo req]⟩
      | none =>
        let r := unmarshal body v
        ⟨r.2, r.1, tr ++ [.httpDo req, .unmarshal body]⟩

/-- The form `data` of `refreshToken`: four `data.Add` on an empty
`url.Values`. -/
def tokenForm (cli : Client) : Values :=
  (((Values.Add [] "grant_type" "client_credentials").Add "client_id" cli.ApplicationID).Add
    "client_secret" cli.ClientSecret).Add "resource" BaseURL

/-- The request `refreshToken` prepares.  `url.ParseRequestURI(LoginBaseURL)`
and `http.NewRequest` cannot fail here: the base is a constant and
`u.String()` escapes the path. -/
def tokenRequest (cli : Client) : Request :=
  { Method := "POST"
    Base := LoginBaseURL
    Path := "/" ++ cli.TenantID ++ "/oauth2/token"
    RawQuery := ""
    Header := [("Content-Type", "application/x-www-form-urlencoded"),
      ("Content-Length", toString (tokenForm cli).Encode.utf8ByteSize)]
    Body := (tokenForm cli).Encode }

/-- The method `Client.refreshToken` (client.go). -/
def refreshToken (L : Lib) (cli : Client) (tr : List Event) : Ret Client :=
  let tr := tr ++ [.refresh]
  if cli.TenantID = "" then
    ⟨some (.errorf0 "tenant ID is empty"), cli, tr⟩
  else
    let r := performRequest L L.jsonToken (tokenRequest cli) Token.zero tr
    match r.err with
    | some err => ⟨some (.errorf "error on getting msgraph Token: %v" err), cli, r.events⟩
    | none => ⟨none, { cli with token := r.val }, r.events⟩

/-- The function `NewGraphClient` (client.go): the client is returned together
with the error of `refreshToken`. -/
def NewGraphClient (L : Lib) (tenantID applicationID clientSecret : String)
    (tr : List Event) : Ret Client :=
  refreshToken L
    { TenantID := tenantID, ApplicationID := applicationID, ClientSecret := clientSecret,
      token := Token.zero } tr

/-- The request `makeGETAPICall` prepares once the token is settled.
`getParams` is `none` for a `nil` map. -/
def getRequest (cli : Client) (apicall : String) (getParams : Option Values) : Request :=
  { Method := "GET"
    Base := BaseURL
    Path := "/" ++ APIVersion ++ apicall
    RawQuery := (Values.Add (getParams.getD []) "$top" (toString MaxPageSize)).Encode
    Header := [("Content-Type", "application/json"),
      ("Authorization", cli.token.GetAccessToken)]
    Body := "" }

/-- The method `Client.makeGETAPICall` (client.go): the error, the client
after the call and the destination after the call. -/
def makeGETAPICall {α : Type} (L : Lib) (unmarshal : Unmarshal α) (cli : Client)
    (apicall : String) (getParams : Option Values) (v : α) (tr : List Event) :
    Ret (Client × α) :=
  let tr := tr ++ [.apiCall apicall]
  let go (cli : Client) (tr : List Event) : Ret (Client × α) :=
    let r := performRequest L unmarshal (getRequest cli apicall getParams) v tr
    ⟨r.err, (cli, r.val), r.events⟩
  if cli.token.WantsToBeRefreshed (L.Now tr) then
    let r := refreshToken L cli tr
    match r.err with
    | some err => ⟨some err, (r.val, v), r.events⟩
    | none => go r.val r.events
  else go cli tr

/-- The credentials `Client.UnmarshalJSON` decodes first (its struct `tmp`). -/
structure Credentials where
  TenantID : String
  ApplicationID : String
  ClientSecret : String
  deriving DecidableEq, Repr

/-- The method `Client.UnmarshalJSON` (client.go).  `unmarshal` is
`json.Unmarshal` on its struct `tmp`. -/
def Client.UnmarshalJSON (L : Lib) (unmarshal : Unmarshal Credentials) (cli : Client)
    (data : String) (tr : List Event) : Ret Client :=
  let r := unmarshal data ⟨"", "", ""⟩
  match r.2 with
  | some err => ⟨some err, cli, tr⟩
  | none =>
    let tmp := r.1
    let cli := { cli with TenantID := tmp.TenantID }
    if cli.TenantID = "" then ⟨some (.errorf0 "TenantID is empty"), cli, tr⟩
    else
      let cli := { cli with ApplicationID := tmp.ApplicationID }
      if cli.ApplicationID = "" then ⟨some (.errorf0 "ApplicationID is empty"), cli, tr⟩
      else
        let cli := { cli with ClientSecret := tmp.ClientSecret }
        if cli.ClientSecret = "" then ⟨some (.errorf0 "ClientSecret is empty"), cli, tr⟩
        else
          let r := refreshToken L cli tr
          match r.err with
          | some err => ⟨some (.errorf "can't get Token: %v" err), r.val, r.events⟩
          | none => ⟨none, r.val, r.events⟩

/-! ## drive.go: the two operations -/

/-- The struct `Drive` (drive.go).  The `*Client` it points to is held by
value and handed back by every operation. -/
structure Drive where
  ID : String
  Client : Client
  deriving DecidableEq, Repr

/-- The method `Client.GetDrive` (drive.go). -/
def Client.GetDrive (cli : Client) (id : String) : Drive := ⟨id, cli⟩

deriving instance DecidableEq for Except

/-- What an operation of `Drive` leaves behind: its results `(value, err)`,
of which the value counts only when the error is `nil`, the drive after the
call, and the events so far. -/
structure DriveRet (α : Type) where
  res : Except GoError α
  drv : Drive
  events : List Event

/-- The method `Drive.ListChildren` (drive.go). -/
def Drive.ListChildren (L : Lib) (drv : Drive) (path : String) (tr : List Event) :
    DriveRet (List Item) :=
  let r := makeGETAPICall L L.jsonItems drv.Client (listChildrenSource drv.ID path) none [] tr
  match r.err with
  | some err => ⟨.error err, { drv with Client := r.val.1 }, r.events⟩
  | none => ⟨.ok r.val.2, { drv with Client := r.val.1 }, r.events⟩

/-- The method `Drive.Item` (drive.go). -/
def Drive.Item (L : Lib) (drv : Drive) (path : String) (tr : List Event) :
    DriveRet Item :=
  let r := makeGETAPICall L L.jsonItem drv.Client (itemSource drv.ID path) none Item.zero tr
  match r.err with
  | some err => ⟨.error err, { drv with Client := r.val.1 }, r.events⟩
  | none => ⟨.ok r.val.2, { drv with Client := r.val.1 }, r.events⟩

/-! ## Reading the events -/

/-- The requests that went to the network, in order. -/
def requests (tr : List Event) : List Request :=
  tr.filterMap fun e => match e with
    | .httpDo req => some req
    | _ => none

/-- The resources `makeGETAPICall` was entered with, in order. -/
def apiCalls (tr : List Event) : List String :=
  tr.filterMap fun e => match e with
    | .apiCall a => some a
    | _ => none

/-- The number of times `refreshToken` was entered. -/
def refreshes (tr : List Event) : Nat :=
  tr.count .refresh

end Graph

/-! ## The front ends -/

namespace Front

open Graph

/-- The struct `DataItem` of both front ends. -/
structure DataItem where
  Name : String
  ReadableSize : String
  Date : Int
  ReadableDate : String
  IsFolder : Bool
  deriving DecidableEq, Repr

/-- The struct `Data` of both front ends. -/
structure Data where
  Parent : String
  Current : String
  Items : List DataItem
  deriving DecidableEq, Repr

/-- The presentation helpers of the front ends, which format text or run a
template and play no part in the control flow. -/
structure View where
  /-- `Template.Execute(w, data)`: the text written and the error -/
  Execute : Data → String × Option GoError
  /-- `filepath.Dir` -/
  Dir : String → String
  /-- `size2readable` -/
  size2readable : Int → String
  /-- `date2readable`, which reads the clock -/
  date2readable : Int → String

/-- The loop of both handlers that fills `data.Items`, one `DataItem` for
each item. -/
def dataItems (V : View) (items : List Item) : List DataItem :=
  items.map fun it =>
    { Name := it.Name, ReadableSize := V.size2readable it.Size, Date := it.LastMod,
      ReadableDate := V.date2readable it.LastMod, IsFolder := it.IsFolder }

/-- The test of both handlers on an error of `ListChildren`: the type switch
`case *drive.ReqError` and the comparison of `Err.Code` with `itemNotFound`. -/
def isItemNotFound : GoError → Bool
  | .req e => e.Err.Code == "itemNotFound"
  | _ => false

end Front

namespace Server

open Graph Front

/-- What a handler did to its `http.ResponseWriter`, one call after the
other. -/
inductive Call where
  /-- `resp.WriteHeader(code)` -/
  | writeHeader (code : Int)
  /-- `resp.Write([]byte(text))` -/
  | write (text : String)
  /-- `resp.Write([]byte(err.Error()))` -/
  | writeError (err : GoError)
  /-- `http.Redirect(resp, req, url, code)` -/
  | redirect (url : String) (code : Int)
  /-- `ds.Tpl.Execute(resp, data)` -/
  | execute (data : Data)
  deriving DecidableEq, Repr

/-- The status net/http sends for a sequence of calls: the code of the first
`WriteHeader` or `Redirect`, and 200 when the body is written first or
nothing is written at all. -/
def status : List Call → Int
  | .writeHeader code :: _ => code
  | .redirect _ code :: _ => code
  | _ => 200

/-- The `parent` of `ServeHTTP`: the path without one trailing `/`, through
`filepath.Dir`. -/
def parentOf (V : View) (path : String) : String :=
  let parent := if path.data.getLast? = some '/' then (⟨path.data.dropLast⟩ : String) else path
  V.Dir parent

/-- The method `DrvSrv.ServeHTTP` (cmd/server/main.go) on a request whose
`URL.Path` is `path`: the calls on the response writer, the drive after the
request and the events. -/
def ServeHTTP (L : Lib) (V : View) (ds : Drive) (path : String) (tr : List Event) :
    List Call × Drive × List Event :=
  let r := ds.ListChildren L path tr
  match r.res with
  | .error err =>
    if isItemNotFound err then
      ([.writeHeader 404, .write "Item Not Found."], r.drv, r.events)
    else
      ([.writeHeader 500, .write "Server Error"], r.drv, r.events)
  | .ok items =>
    if items.length = 0 then
      let r2 := r.drv.Item L path r.events
      match r2.res with
      | .error err => ([.writeError err], r2.drv, r2.events)
      | .ok item => ([.redirect item.DownloadURL 307], r2.drv, r2.events)
    else
      let data : Data :=
        { Parent := parentOf V path, Current := path, Items := dataItems V items }
      ([.execute data], r.drv, r.events)

end Server

namespace Lambda

open Graph Front

/-- The struct `Event` of the lambda front end, as far as `Serve` reads it. -/
structure Event where
  Path : String
  PathParameters : List (String × String)
  deriving DecidableEq, Repr

/-- The struct `Response` of the lambda front end. -/
structure Response where
  IsBase64Encoded : Bool
  StatusCode : Int
  Body : String
  Headers : List (String × String)
  deriving DecidableEq, Repr

/-- The `parent` of `Serve`: the path with a leading `/` and without one
trailing `/`, through `filepath.Dir`. -/
def parentOf (V : View) (path : String) : String :=
  let parent := if path.data.head? = some '/' then path else "/" ++ path
  let parent :=
    if parent.data.getLast? = some '/' then (⟨parent.data.dropLast⟩ : String) else parent
  V.Dir parent

/-- The function `Serve` (cmd/lambda/main.go): the response and the error it
returns, the drive after the request and the events. -/
def Serve (L : Lib) (V : View) (drv : Drive) (event : Event) (tr : List Graph.Event) :
    (Response × Option GoError) × Drive × List Graph.Event :=
  let path := (event.PathParameters.lookup "proxy").getD ""
  let r := drv.ListChildren L path tr
  match r.res with
  | .error err =>
    if isItemNotFound err then
      ((⟨false, 404, "Item Not Found.", []⟩, none), r.drv, r.events)
    else
      ((⟨false, 500, "Internal Server Error.", []⟩, some err), r.drv, r.events)
  | .ok items =>
    if items.length = 0 then
      let r2 := r.drv.Item L path r.events
      match r2.res with
      | .error err =>
        ((⟨false, 500, "Internal Server Error.", []⟩, some err), r2.drv, r2.events)
      | .ok item =>
        ((⟨false, 307, "", [("Location", item.DownloadURL)]⟩, none), r2.drv, r2.events)
    else
      let data : Data :=
        { Parent := parentOf V path, Current := path, Items := dataItems V items }
      let out := V.Execute data
      match out.2 with
      | some err => ((⟨false, 500, "Internal Server Error.", []⟩, some err), r.drv, r.events)
      | none =>
        ((⟨false, 200, out.1, [("Content-Type", "text/html; charset=utf-8")]⟩, none),
          r.drv, r.events)

end Lambda

/-! ## size2readable (both front ends)

The function is the same in cmd/server/main.go and cmd/lambda/main.go.  Its
integer part is embedded: the test, the loop on 64-bit integers and the
index into the unit string.  The text itself needs `%.1f` of a quotient of
floats, so the result is given as what the two `Sprintf` are called with. -/

namespace Front

/-- A Go `int64` computation brought back into the range of `int64`: the
result wraps around modulo `2^64`. -/
def wrapInt64 (x : Int) : Int :=
  (x + 2 ^ 63) % 2 ^ 64 - 2 ^ 63

/-- The loop of `size2readable`,
`for n := size / unit; n >= unit; n /= unit { div *= unit; exp++ }`, from the
values of `n`, `div` and `exp` at a test of the condition: the final `div` and
`exp`, or `none` when the fuel runs out first.  `div *= unit` wraps as an
`int64`; `exp` counts the rounds, at most the fuel, so it stays far inside
any `int`.  `/` on integers truncates toward zero. -/
def sizeLoop : Nat → Int → Int → Int → Option (Int × Int)
  | 0, _, _, _ => none
  | fuel + 1, n, div, exp =>
    if n ≥ 1024 then sizeLoop fuel (n.tdiv 1024) (wrapInt64 (div * 1024)) (exp + 1)
    else some (div, exp)

/-- What `size2readable` formats. -/
inductive SizeText where
  /-- `fmt.Sprintf("%d B", size)` -/
  | bytes (size : Int)
  /-- `fmt.Sprintf("%.1f %ciB", float64(size)/float64(div), unit)` -/
  | scaled (size div : Int) (unit : Char)
  deriving DecidableEq, Repr

/-- How `size2readable` can fail to return. -/
inductive SizeFault where
  /-- the loop is still running when the fuel is spent -/
  | outOfFuel
  /-- `"KMGTPE"[exp]` panics: index out of range -/
  | indexOutOfRange (exp : Int)
  deriving DecidableEq, Repr

/-- The function `size2readable` on an `int64`: the plain-bytes branch for a
size under 1024, else the loop and the index into `KMGTPE`.  A loop on an
`int64` divides a number below `2^63` by 1024 each round, so 64 rounds of
fuel are more than it can use. -/
def size2readable (size : Int) : Except SizeFault SizeText :=
  if size < 1024 then .ok (.bytes size)
  else
    match sizeLoop 64 (size.tdiv 1024) 1024 0 with
    | none => .error .outOfFuel
    | some (div, exp) =>
      if exp < 0 then .error (.indexOutOfRange exp)
      else
        match "KMGTPE".data[exp.toNat]? with
        | some unit => .ok (.scaled size div unit)
        | none => .error (.indexOutOfRange exp)

end Front

/-! ## Scenarios

Concrete runs, used to evaluate the handlers and the client on explicit
inputs.  A scenario fixes the answers of the network; the decoders of the
success payloads are scripted to give what the payload of the scenario
spells. -/

namespace Scenario

open Graph Front

/-- The error body of the Graph API for a path that does not exist. -/
def notFoundBody : String := "\x7b\"error\":\x7b\"code\":\"itemNotFound\",\"message\":\"m\"\x7d\x7d"

/-- A token valid from second 0 to second 3600. -/
def token : Token := ⟨"Bearer abc", 0, 3600⟩

/-- A client holding `token`. -/
def client : Client := ⟨"tenant", "app", "secret", token⟩

/-- A client whose token was never set: the zero `Token`. -/
def staleClient : Client := ⟨"tenant", "app", "secret", Token.zero⟩

/-- The drive `D` of `client`. -/
def drive : Drive := ⟨"D", client⟩

/-- A folder without children, as `Item` decodes it: no download URL. -/
def emptyFolder : Item := { Item.zero with Name := "empty", Folder := some 0 }

/-- A file, as `ListChildren` decodes it. -/
def file : Item :=
  { Item.zero with Name := "a.txt", Size := 5, File := some "text/plain",
                   DownloadURL := "https://dl.example/a" }

/-- The world at second 100 in which the network answers `Do`, a listing
decodes to `children` and an item to `item`. -/
def lib (Do : List Graph.Event → Request → DoResult) (children : List Item) (item : Item) :
    Lib :=
  { Do := Do
    Now := fun _ => 100
    jsonReqError := Json.unmarshalReqError
    jsonToken := fun _ t => (t, none)
    jsonItems := fun _ _ => (children, none)
    jsonItem := fun _ _ => (item, none) }

/-- Every request is answered 404 with `notFoundBody`. -/
def notFound : Lib := lib (fun _ _ => .resp 404 notFoundBody none) [] Item.zero

/-- Every request is answered 200; the listing is empty and the item is
`emptyFolder`. -/
def folderWithoutChildren : Lib :=
  lib (fun _ _ => .resp 200 "\x7b\x7d" none) [] emptyFolder

/-- Every request is answered 200; the listing holds `file`. -/
def folderWithFile : Lib :=
  lib (fun _ _ => .resp 200 "\x7b\x7d" none) [file] Item.zero

/-- The first request is answered 200 with an empty listing, every later one
404 with `notFoundBody`. -/
def listedThenGone : Lib :=
  lib (fun tr _ =>
    if (requests tr).length = 0 then .resp 200 "\x7b\"value\":[]\x7d" none
    else .resp 404 notFoundBody none) [] Item.zero

/-- A view whose template writes a fixed page. -/
def view : View :=
  { Execute := fun _ => ("<html></html>", none)
    Dir := fun p => p
    size2readable := fun _ => "5 B"
    date2readable := fun _ => "recently" }

/-- The lambda event for the path `p`. -/
def event (p : String) : Lambda.Event := ⟨"/" ++ p, [("proxy", p)]⟩

/-- The `ReqError` that `NewErr(404, notFoundBody)` is. -/
def notFoundErr : ReqError :=
  ⟨"", 404, ⟨"itemNotFound", "m", ⟨"", "", ""⟩⟩, false, notFoundBody⟩

end Scenario

namespace Graph

/-! ## Lemmas on trimming -/

theorem trimLeftByte_decomp (s : List Char) (c : Char) :
    ∃ a : Nat, s = List.replicate a c ++ trimLeftByte s c := by
  induction s with
  | nil => exact ⟨0, rfl⟩
  | cons x xs ih =>
    by_cases h : x = c
    · obtain ⟨a, ha⟩ := ih
      refine ⟨a + 1, ?_⟩
      subst h
      simp only [trimLeftByte, List.dropWhile_cons, beq_self_eq_true, if_true,
        List.replicate_succ, List.cons_append, List.cons.injEq, true_and]
      exact ha
    · refine ⟨0, ?_⟩
      simp [trimLeftByte, List.dropWhile_cons, h]

theorem trimRightByte_decomp (s : List Char) (c : Char) :
    ∃ b : Nat, s = trimRightByte s c ++ List.replicate b c := by
  induction s using List.reverseRecOn with
  | nil => exact ⟨0, rfl⟩
  | append_singleton xs x ih =>
    by_cases h : x = c
    · obtain ⟨b, hb⟩ := ih
      refine ⟨b + 1, ?_⟩
      subst h
      have hr : trimRightByte (xs ++ [x]) x = trimRightByte xs x := by
        simp [trimRightByte, List.rdropWhile_concat]
      rw [hr, List.replicate_succ', ← List.append_assoc, ← hb]
    · refine ⟨0, ?_⟩
      simp [trimRightByte, List.rdropWhile_concat, h]

theorem trimLeftByte_head (s : List Char) (c : Char) :
    (trimLeftByte s c).head? ≠ some c := by
  induction s with
  | nil => simp [trimLeftByte]
  | cons x xs ih =>
    by_cases h : x = c
    · subst h
      simpa [trimLeftByte, List.dropWhile_cons] using ih
    · simp [trimLeftByte, List.dropWhile_cons, h]

theorem trimRightByte_getLast (s : List Char) (c : Char) :
    (trimRightByte s c).getLast? ≠ some c := by
  induction s using List.reverseRecOn with
  | nil => simp [trimRightByte]
  | append_singleton xs x ih =>
    by_cases h : x = c
    · subst h
      simpa [trimRightByte, List.rdropWhile_concat] using ih
    · simp [trimRightByte, List.rdropWhile_concat, h]

theorem trimLeftByte_getLast (s : List Char) (c : Char)
    (h : s.getLast? ≠ some c) : (trimLeftByte s c).getLast? ≠ some c := by
  induction s with
  | nil => simp [trimLeftByte]
  | cons x xs ih =>
    by_cases hx : x = c
    · subst hx
      have hxs : xs.getLast? ≠ some x := by
        cases xs with
        | nil => simp
        | cons y ys => simpa [List.getLast?_cons_cons] using h
      simpa [trimLeftByte, List.dropWhile_cons] using ih hxs
    · simpa [trimLeftByte, List.dropWhile_cons, hx] using h

theorem trimLeftByte_replicate_append (a : Nat) (t : List Char) (c : Char)
    (h : t.head? ≠ some c) : trimLeftByte (List.replicate a c ++ t) c = t := by
  induction a with
  | zero =>
    cases t with
    | nil => rfl
    | cons y ys =>
      have : y ≠ c := by simpa using h
      simp [trimLeftByte, List.dropWhile_cons, this]
  | succ n ih =>
    simpa [trimLeftByte, List.replicate_succ, List.dropWhile_cons] using ih

theorem trimRightByte_append_replicate (b : Nat) (t : List Char) (c : Char)
    (h : t.getLast? ≠ some c) : trimRightByte (t ++ List.replicate b c) c = t := by
  induction b with
  | zero =>
    induction t using List.reverseRecOn with
    | nil => rfl
    | append_singleton ys y _ =>
      have : y ≠ c := by simpa using h
      simp [trimRightByte, List.rdropWhile_concat, this]
  | succ n ih =>
    have hr : trimRightByte (t ++ List.replicate n c ++ [c]) c
        = trimRightByte (t ++ List.replicate n c) c := by
      simp only [trimRightByte, List.rdropWhile_concat, beq_self_eq_true, if_true]
    rw [List.replicate_succ', ← List.append_assoc, hr]
    exact ih

theorem trimRightByte_all (a : Nat) (c : Char) :
    trimRightByte (List.replicate a c) c = [] := by
  simp [trimRightByte, List.rdropWhile_eq_nil_iff]

/-- The `Trim` of the code removes all leading and trailing `'/'`. -/
theorem Trim_isSlashTrimOf (p : String) : IsSlashTrimOf p (Trim p '/') := by
  obtain ⟨b, hb⟩ := trimRightByte_decomp p.data '/'
  obtain ⟨a, ha⟩ := trimLeftByte_decomp (trimRightByte p.data '/') '/'
  refine ⟨⟨a, b, ?_⟩, trimLeftByte_head _ _, ?_⟩
  · show p.data = List.replicate a '/' ++ trimLeftByte (trimRightByte p.data '/') '/' ++ _
    rw [← ha, ← hb]
  · exact trimLeftByte_getLast _ _ (trimRightByte_getLast _ _)

/-- What `IsSlashTrimOf` describes is unique, and it is what `Trim` computes. -/
theorem Trim_eq_of_isSlashTrimOf (p t : String) (h : IsSlashTrimOf p t) :
    Trim p '/' = t := by
  obtain ⟨⟨a, b, hab⟩, hhead, hlast⟩ := h
  have hdata : (Trim p '/').data = t.data := by
    show trimLeftByte (trimRightByte p.data '/') '/' = t.data
    rw [hab]
    by_cases ht : t.data = []
    · rw [ht, List.append_nil, ← List.replicate_add, trimRightByte_all]
      rfl
    · have h1 : (List.replicate a '/' ++ t.data).getLast? ≠ some '/' := by
        rw [List.getLast?_append_of_ne_nil _ ht]
        exact hlast
      rw [trimRightByte_append_replicate b _ _ h1,
        trimLeftByte_replicate_append a _ _ hhead]
  exact String.ext hdata

end Graph

namespace Graph

/-! ## The events of a call start with the call -/

theorem performRequest_events {α : Type} (L : Lib) (u : Unmarshal α) (req : Request) (v : α)
    (tr : List Event) :
    ∃ rest, (performRequest L u req v tr).events = tr ++ .httpDo req :: rest := by
  unfold performRequest
  cases L.Do tr req with
  | fail err => exact ⟨[], rfl⟩
  | resp sc body readErr =>
    by_cases h : sc < 200 ∨ sc > 299
    · exact ⟨[.newErr sc body], by simp [h]⟩
    · cases readErr with
      | some err => exact ⟨[], by simp [h]⟩
      | none => exact ⟨[.unmarshal body], by simp [h]⟩

theorem refreshToken_events (L : Lib) (cli : Client) (tr : List Event) :
    ∃ rest, (refreshToken L cli tr).events = tr ++ .refresh :: rest := by
  unfold refreshToken
  by_cases h : cli.TenantID = ""
  · exact ⟨[], by simp [h]⟩
  · obtain ⟨rest, hrest⟩ :=
      performRequest_events L L.jsonToken (tokenRequest cli) Token.zero (tr ++ [.refresh])
    refine ⟨.httpDo (tokenRequest cli) :: rest, ?_⟩
    simp only [h, if_false]
    split <;> simp [hrest]

theorem makeGETAPICall_events {α : Type} (L : Lib) (u : Unmarshal α) (cli : Client)
    (apicall : String) (getParams : Option Values) (v : α) (tr : List Event) :
    ∃ rest, (makeGETAPICall L u cli apicall getParams v tr).events
      = tr ++ .apiCall apicall :: rest := by
  unfold makeGETAPICall
  by_cases h : cli.token.WantsToBeRefreshed (L.Now (tr ++ [.apiCall apicall])) = true
  · obtain ⟨r1, h1⟩ := refreshToken_events L cli (tr ++ [.apiCall apicall])
    simp only [h, if_true]
    split
    · exact ⟨.refresh :: r1, by simp [h1]⟩
    · obtain ⟨r2, h2⟩ := performRequest_events L u
        (getRequest (refreshToken L cli (tr ++ [.apiCall apicall])).val apicall getParams) v
        (refreshToken L cli (tr ++ [.apiCall apicall])).events
      refine ⟨.refresh :: r1 ++ .httpDo (getRequest
        (refreshToken L cli (tr ++ [.apiCall apicall])).val apicall getParams) :: r2, ?_⟩
      rw [h2, h1]
      simp
  · obtain ⟨r2, h2⟩ := performRequest_events L u (getRequest cli apicall getParams) v
      (tr ++ [.apiCall apicall])
    simp only [h, if_false]
    refine ⟨.httpDo (getRequest cli apicall getParams) :: r2, ?_⟩
    rw [h2]
    simp

theorem ListChildren_events (L : Lib) (drv : Drive) (path : String) (tr : List Event) :
    (drv.ListChildren L path tr).events
      = (makeGETAPICall L L.jsonItems drv.Client (listChildrenSource drv.ID path) none []
          tr).events := by
  simp only [Drive.ListChildren]
  split <;> rfl

theorem Item_events (L : Lib) (drv : Drive) (path : String) (tr : List Event) :
    (drv.Item L path tr).events
      = (makeGETAPICall L L.jsonItem drv.Client (itemSource drv.ID path) none Item.zero
          tr).events := by
  simp only [Drive.Item]
  split <;> rfl

/-! ## NewErr (error.go) -/

/-- C3: for every status `s` and body `b`, and whatever `json.Unmarshal` does
with the JSON field of the struct, `NewErr(s, b)` has `StatusCode` `s` and
`Raw` exactly `b`; it is marked `notValid` if and only if the decoding of `b`
returns an error; and when `b` decodes, `Err` (so `Err.Code`) is what the
decoder read.  With the decoder of encoding/json: the 404 with the
`itemNotFound` envelope has code `itemNotFound` and is not raw, and
`NewErr(500, "not json")` is raw, with `Raw` the body and `StatusCode` 500. -/
theorem NewErr_fields (unmarshal : Unmarshal ErrBody) (s : Int) (b : String) :
    (NewErr unmarshal s b).StatusCode = s ∧
    (NewErr unmarshal s b).Raw = b ∧
    ((NewErr unmarshal s b).notValid = true ↔ (unmarshal b ErrBody.zero).2 ≠ none) ∧
    ((unmarshal b ErrBody.zero).2 = none →
      (NewErr unmarshal s b).Err = (unmarshal b ErrBody.zero).1 ∧
      (NewErr unmarshal s b).Err.Code = (unmarshal b ErrBody.zero).1.Code) ∧
    NewErr Json.unmarshalReqError 404
        "\x7b\"error\":\x7b\"code\":\"itemNotFound\",\"message\":\"m\"\x7d\x7d"
      = ⟨"", 404, ⟨"itemNotFound", "m", ⟨"", "", ""⟩⟩, false,
          "\x7b\"error\":\x7b\"code\":\"itemNotFound\",\"message\":\"m\"\x7d\x7d"⟩ ∧
    NewErr Json.unmarshalReqError 500 "not json"
      = ⟨"", 500, ErrBody.zero, true, "not json"⟩ := by
  refine ⟨?_, ?_, ?_, ?_, by decide, by decide⟩
  · simp only [NewErr]
    split <;> rfl
  · simp only [NewErr]
    split <;> rfl
  · cases h : (unmarshal b ErrBody.zero).2 <;> simp [NewErr, h]
  · intro h
    simp [NewErr, h]

/-! ## performRequest (client.go) -/

/-- C4: when `performRequest` receives a response with status `s` and body
`b`: if `s < 200` or `s > 299` the result is exactly `NewErr(s, b)`, the
destination is left alone and `json.Unmarshal` is not called on it (this
holds whatever reading the body returned); otherwise, the body having been
read, `NewErr` is not called and the result is the result of
`json.Unmarshal(b, &v)`, its error returned as it is. -/
theorem performRequest_status {α : Type} (L : Lib) (u : Unmarshal α) (req : Request) (v : α)
    (tr : List Event) (s : Int) (b : String) (readErr : Option String)
    (h : L.Do tr req = .resp s b readErr) :
    ((s < 200 ∨ s > 299) →
      (performRequest L u req v tr).err = some (.req (NewErr L.jsonReqError s b)) ∧
      (performRequest L u req v tr).val = v ∧
      (performRequest L u req v tr).events = tr ++ [.httpDo req, .newErr s b]) ∧
    ((200 ≤ s ∧ s ≤ 299) → readErr = none →
      (performRequest L u req v tr).err = (u b v).2 ∧
      (performRequest L u req v tr).val = (u b v).1 ∧
      (performRequest L u req v tr).events = tr ++ [.httpDo req, .unmarshal b]) := by
  refine ⟨?_, ?_⟩
  · intro hs
    simp [performRequest, h, hs]
  · intro hs hr
    have hs2 : ¬ (s < 200 ∨ s > 299) := by omega
    subst hr
    simp [performRequest, h, hs2]

/-! ## Requests, resources and refreshes of a call -/

theorem requests_append (a b : List Event) : requests (a ++ b) = requests a ++ requests b := by
  simp [requests, List.filterMap_append]

theorem apiCalls_append (a b : List Event) : apiCalls (a ++ b) = apiCalls a ++ apiCalls b := by
  simp [apiCalls, List.filterMap_append]

theorem refreshes_append (a b : List Event) :
    refreshes (a ++ b) = refreshes a + refreshes b := by
  simp [refreshes, List.count_append]

theorem performRequest_trace {α : Type} (L : Lib) (u : Unmarshal α) (req : Request) (v : α)
    (tr : List Event) :
    requests (performRequest L u req v tr).events = requests tr ++ [req] ∧
    apiCalls (performRequest L u req v tr).events = apiCalls tr ∧
    refreshes (performRequest L u req v tr).events = refreshes tr := by
  unfold performRequest
  cases L.Do tr req with
  | fail err => simp [requests_append, apiCalls_append, refreshes_append, requests, apiCalls,
      refreshes]
  | resp sc body readErr =>
    by_cases h : sc < 200 ∨ sc > 299
    · simp [h, requests_append, apiCalls_append, refreshes_append, requests, apiCalls,
        refreshes]
    · cases readErr <;>
        simp [h, requests_append, apiCalls_append, refreshes_append, requests, apiCalls,
          refreshes]

theorem refreshToken_trace (L : Lib) (cli : Client) (tr : List Event) :
    requests (refreshToken L cli tr).events
      = requests tr ++ (if cli.TenantID = "" then [] else [tokenRequest cli]) ∧
    apiCalls (refreshToken L cli tr).events = apiCalls tr ∧
    refreshes (refreshToken L cli tr).events = refreshes tr + 1 := by
  unfold refreshToken
  by_cases h : cli.TenantID = ""
  · simp [h, requests_append, apiCalls_append, refreshes_append, requests, apiCalls, refreshes]
  · obtain ⟨h1, h2, h3⟩ :=
      performRequest_trace L L.jsonToken (tokenRequest cli) Token.zero (tr ++ [.refresh])
    have e1 : requests (tr ++ [Event.refresh]) = requests tr := by
      simp [requests_append, requests]
    have e2 : apiCalls (tr ++ [Event.refresh]) = apiCalls tr := by
      simp [apiCalls_append, apiCalls]
    have e3 : refreshes (tr ++ [Event.refresh]) = refreshes tr + 1 := by
      simp [refreshes_append, refreshes]
    rw [e1] at h1
    rw [e2] at h2
    rw [e3] at h3
    simp only [h, if_false]
    split <;> exact ⟨h1, h2, h3⟩

/-- The client `refreshToken` leaves behind keeps its credentials, and keeps
its token too when the call fails. -/
theorem refreshToken_client (L : Lib) (cli : Client) (tr : List Event) :
    (refreshToken L cli tr).val.TenantID = cli.TenantID ∧
    (refreshToken L cli tr).val.ApplicationID = cli.ApplicationID ∧
    (refreshToken L cli tr).val.ClientSecret = cli.ClientSecret ∧
    ((refreshToken L cli tr).err ≠ none → (refreshToken L cli tr).val = cli) := by
  unfold refreshToken
  by_cases h : cli.TenantID = ""
  · simp [h]
  · simp only [h, if_false]
    split <;> simp

/-! ## makeGETAPICall (client.go) -/

theorem makeGETAPICall_valid {α : Type} (L : Lib) (u : Unmarshal α) (cli : Client)
    (apicall : String) (getParams : Option Values) (v : α) (tr : List Event)
    (h : cli.token.WantsToBeRefreshed (L.Now (tr ++ [.apiCall apicall])) = false) :
    makeGETAPICall L u cli apicall getParams v tr
      = ⟨(performRequest L u (getRequest cli apicall getParams) v
            (tr ++ [.apiCall apicall])).err,
          (cli, (performRequest L u (getRequest cli apicall getParams) v
            (tr ++ [.apiCall apicall])).val),
          (performRequest L u (getRequest cli apicall getParams) v
            (tr ++ [.apiCall apicall])).events⟩ := by
  simp [makeGETAPICall, h]

theorem makeGETAPICall_stale_fail {α : Type} (L : Lib) (u : Unmarshal α) (cli : Client)
    (apicall : String) (getParams : Option Values) (v : α) (tr : List Event)
    (h : cli.token.WantsToBeRefreshed (L.Now (tr ++ [.apiCall apicall])) = true)
    (e : GoError) (he : (refreshToken L cli (tr ++ [.apiCall apicall])).err = some e) :
    makeGETAPICall L u cli apicall getParams v tr
      = ⟨some e, ((refreshToken L cli (tr ++ [.apiCall apicall])).val, v),
          (refreshToken L cli (tr ++ [.apiCall apicall])).events⟩ := by
  simp [makeGETAPICall, h, he]

theorem makeGETAPICall_stale_ok {α : Type} (L : Lib) (u : Unmarshal α) (cli : Client)
    (apicall : String) (getParams : Option Values) (v : α) (tr : List Event)
    (h : cli.token.WantsToBeRefreshed (L.Now (tr ++ [.apiCall apicall])) = true)
    (he : (refreshToken L cli (tr ++ [.apiCall apicall])).err = none) :
    makeGETAPICall L u cli apicall getParams v tr
      = ⟨(performRequest L u
            (getRequest (refreshToken L cli (tr ++ [.apiCall apicall])).val apicall getParams) v
            (refreshToken L cli (tr ++ [.apiCall apicall])).events).err,
          ((refreshToken L cli (tr ++ [.apiCall apicall])).val,
            (performRequest L u
              (getRequest (refreshToken L cli (tr ++ [.apiCall apicall])).val apicall getParams)
              v (refreshToken L cli (tr ++ [.apiCall apicall])).events).val),
          (performRequest L u
            (getRequest (refreshToken L cli (tr ++ [.apiCall apicall])).val apicall getParams) v
            (refreshToken L cli (tr ++ [.apiCall apicall])).events).events⟩ := by
  simp [makeGETAPICall, h, he]

theorem makeGETAPICall_apiCalls {α : Type} (L : Lib) (u : Unmarshal α) (cli : Client)
    (apicall : String) (getParams : Option Values) (v : α) (tr : List Event) :
    apiCalls (makeGETAPICall L u cli apicall getParams v tr).events
      = apiCalls tr ++ [apicall] := by
  have hF := refreshToken_trace L cli (tr ++ [.apiCall apicall])
  have hapi : apiCalls (tr ++ [Event.apiCall apicall]) = apiCalls tr ++ [apicall] := by
    simp [apiCalls_append, apiCalls]
  cases h : cli.token.WantsToBeRefreshed (L.Now (tr ++ [.apiCall apicall])) with
  | false =>
    rw [makeGETAPICall_valid L u cli apicall getParams v tr h]
    show apiCalls (performRequest L u _ v _).events = _
    rw [(performRequest_trace L u _ v _).2.1, hapi]
  | true =>
    cases he : (refreshToken L cli (tr ++ [.apiCall apicall])).err with
    | some e =>
      rw [makeGETAPICall_stale_fail L u cli apicall getParams v tr h e he]
      show apiCalls (refreshToken L cli _).events = _
      rw [hF.2.1, hapi]
    | none =>
      rw [makeGETAPICall_stale_ok L u cli apicall getParams v tr h he]
      show apiCalls (performRequest L u _ v _).events = _
      rw [(performRequest_trace L u _ v _).2.1, hF.2.1, hapi]

/-! ### The query string: escaping and reading back -/

set_option maxRecDepth 100000 in
theorem escapeByte_chars :
    ∀ b, b < 256 → ∀ c ∈ escapeByte b, c ≠ '&' ∧ c ≠ '=' := by decide

set_option maxRecDepth 100000 in
theorem unhex_upperhex : ∀ x, x < 16 → unhex (upperhex x) = some x := by decide

set_option maxRecDepth 100000 in
theorem utf8EncodeChar_ascii :
    ∀ b, b < 128 → (String.utf8EncodeChar (Char.ofNat b)).map (fun x => x.toNat) = [b] := by
  decide

set_option maxRecDepth 100000 in
theorem kept_byte_plain :
    ∀ b, b < 256 → shouldEscapeQuery b = false →
      b < 128 ∧ Char.ofNat b ≠ '%' ∧ Char.ofNat b ≠ '+' := by decide

theorem utf8Bytes_lt (s : String) : ∀ b ∈ utf8Bytes s, b < 256 := by
  intro b hb
  simp only [utf8Bytes, List.mem_flatMap, List.mem_map] at hb
  obtain ⟨c, _, x, _, rfl⟩ := hb
  exact x.val.isLt

theorem unescape_plain (c : Char) (rest : List Char) (h1 : c ≠ '%') (h2 : c ≠ '+') :
    unescape (c :: rest)
      = (unescape rest).map (((String.utf8EncodeChar c).map fun b => b.toNat) ++ ·) := by
  conv_lhs => unfold unescape
  simp only [h1, h2, if_false]

theorem unescape_plus (rest : List Char) :
    unescape ('+' :: rest) = (unescape rest).map (32 :: ·) := by
  conv_lhs => unfold unescape
  simp

theorem unescape_percent (a b : Char) (rest : List Char) (x y : Nat)
    (hx : unhex a = some x) (hy : unhex b = some y) :
    unescape ('%' :: a :: b :: rest) = (unescape rest).map ((x * 16 + y) :: ·) := by
  conv_lhs => unfold unescape
  simp only [if_true, hx, hy]
  cases unescape rest <;> rfl

theorem unescape_escapeByte (b : Nat) (hb : b < 256) (rest : List Char) :
    unescape (escapeByte b ++ rest) = (unescape rest).map (b :: ·) := by
  cases hs : shouldEscapeQuery b with
  | false =>
    obtain ⟨h128, h1, h2⟩ := kept_byte_plain b hb hs
    have hu := utf8EncodeChar_ascii b h128
    simp only [escapeByte, hs, Bool.false_eq_true, if_false, List.singleton_append]
    rw [unescape_plain _ _ h1 h2, hu]
    rfl
  | true =>
    by_cases h32 : b = 32
    · subst h32
      simp only [escapeByte, hs, if_true, List.singleton_append]
      exact unescape_plus rest
    · have hx := unhex_upperhex (b / 16) (by omega)
      have hy := unhex_upperhex (b % 16) (by omega)
      have hb' : b / 16 * 16 + b % 16 = b := by omega
      simp only [escapeByte, hs, h32, if_true, if_false, List.cons_append, List.nil_append]
      rw [unescape_percent _ _ rest _ _ hx hy, hb']

theorem unescape_flatMap (bs : List Nat) (h : ∀ b ∈ bs, b < 256) :
    unescape (bs.flatMap escapeByte) = some bs := by
  induction bs with
  | nil => rfl
  | cons b bs ih =>
    rw [List.flatMap_cons, unescape_escapeByte b (h b (List.mem_cons_self _ _)),
      ih (fun x hx => h x (List.mem_cons_of_mem _ hx))]
    rfl

/-- What `QueryEscape` writes, `QueryUnescape` reads back: the bytes of the
string. -/
theorem QueryUnescape_QueryEscape (s : String) :
    QueryUnescape (QueryEscape s) = some (utf8Bytes s) :=
  unescape_flatMap (utf8Bytes s) (utf8Bytes_lt s)

theorem QueryEscape_chars (s : String) :
    ∀ c ∈ (QueryEscape s).data, c ≠ '&' ∧ c ≠ '=' := by
  intro c hc
  have hc' : c ∈ (utf8Bytes s).flatMap escapeByte := hc
  rw [List.mem_flatMap] at hc'
  obtain ⟨b, hb, hcb⟩ := hc'
  exact escapeByte_chars b (utf8Bytes_lt s b hb) c hcb

theorem Values.Encode_eq_pairs (v : Values) : v.Encode = "&".intercalate v.pairs := rfl

theorem Values.Add_mem (v : Values) (key value : String) :
    ∃ vs, (key, vs) ∈ Values.Add v key value ∧ value ∈ vs := by
  induction v with
  | nil => exact ⟨[value], by simp [Values.Add]⟩
  | cons kv rest ih =>
    obtain ⟨k, vs⟩ := kv
    by_cases h : k = key
    · subst h
      exact ⟨vs ++ [value], by simp [Values.Add]⟩
    · obtain ⟨ws, hw, hv⟩ := ih
      exact ⟨ws, by simp [Values.Add, h, hw], hv⟩

theorem Values.pairs_mem (v : Values) (k : String) (vs : List String) (x : String)
    (hk : (k, vs) ∈ v) (hx : x ∈ vs) :
    QueryEscape k ++ "=" ++ QueryEscape x ∈ v.pairs := by
  unfold Values.pairs
  rw [List.mem_flatMap]
  refine ⟨(k, vs), ?_, ?_⟩
  · exact (List.perm_insertionSort _ v).mem_iff.mpr hk
  · simp only [encodeKey, List.mem_map]
    exact ⟨x, hx, rfl⟩

theorem Values.pairs_no_amp (v : Values) : ∀ p ∈ v.pairs, '&' ∉ p.data := by
  intro p hp
  unfold Values.pairs at hp
  rw [List.mem_flatMap] at hp
  obtain ⟨kv, _, hkv⟩ := hp
  simp only [encodeKey, List.mem_map] at hkv
  obtain ⟨x, _, rfl⟩ := hkv
  intro hmem
  simp only [String.data_append, List.mem_append] at hmem
  have hsep : ¬ ('&' ∈ "=".data) := by decide
  rcases hmem with (h | h) | h
  · exact (QueryEscape_chars kv.1 '&' h).1 rfl
  · exact hsep h
  · exact (QueryEscape_chars x '&' h).1 rfl

/-- C5: `makeGETAPICall` performs the credential exchange (`refreshToken`)
exactly when the token of the client wants to be refreshed at call time.
With a token that is still valid it sends no request to the token endpoint
and exactly one request, the resource GET, whose query string contains
`$top=999`: it is the `&`-joined list of the URL-encoded parameters, one of
which is `%24top=999`, the encoding of `$top` = `999` (the whole query when
the caller passes no parameter, and what `ParseQuery` reads back).  With a
stale token the exchange comes first: if it fails its error is returned and
no GET is sent, otherwise the token request is followed by the GET. -/
theorem makeGETAPICall_exchange {α : Type} (L : Lib) (u : Unmarshal α) (cli : Client)
    (apicall : String) (getParams : Option Values) (v : α) (tr : List Event) :
    (refreshes (makeGETAPICall L u cli apicall getParams v tr).events
      = refreshes tr
        + (if cli.token.WantsToBeRefreshed (L.Now (tr ++ [.apiCall apicall])) then 1 else 0)) ∧
    (cli.token.WantsToBeRefreshed (L.Now (tr ++ [.apiCall apicall])) = false →
      requests (makeGETAPICall L u cli apicall getParams v tr).events
        = requests tr ++ [getRequest cli apicall getParams]) ∧
    (cli.token.WantsToBeRefreshed (L.Now (tr ++ [.apiCall apicall])) = true →
      (∀ e, (refreshToken L cli (tr ++ [.apiCall apicall])).err = some e →
        (makeGETAPICall L u cli apicall getParams v tr).err = some e ∧
        requests (makeGETAPICall L u cli apicall getParams v tr).events
          = requests tr ++ (if cli.TenantID = "" then [] else [tokenRequest cli])) ∧
      ((refreshToken L cli (tr ++ [.apiCall apicall])).err = none →
        requests (makeGETAPICall L u cli apicall getParams v tr).events
          = requests tr ++ [tokenRequest cli,
              getRequest (refreshToken L cli (tr ++ [.apiCall apicall])).val apicall
                getParams])) ∧
    ((tokenRequest cli).Method = "POST" ∧ (tokenRequest cli).Base = LoginBaseURL) ∧
    (∀ c, (getRequest c apicall getParams).Method = "GET" ∧
      (getRequest c apicall getParams).Base = BaseURL ∧
      (getRequest c apicall getParams).Path = "/v1.0" ++ apicall ∧
      (getRequest c apicall getParams).RawQuery
        = (Values.Add (getParams.getD []) "$top" "999").Encode ∧
      (getRequest c apicall getParams).RawQuery
        = "&".intercalate (Values.Add (getParams.getD []) "$top" "999").pairs ∧
      "%24top=999" ∈ (Values.Add (getParams.getD []) "$top" "999").pairs ∧
      (∀ p ∈ (Values.Add (getParams.getD []) "$top" "999").pairs, '&' ∉ p.data) ∧
      "%24top=999" = QueryEscape "$top" ++ "=" ++ QueryEscape "999" ∧
      QueryUnescape "%24top" = some (utf8Bytes "$top") ∧
      QueryUnescape "999" = some (utf8Bytes "999") ∧
      (getRequest c apicall none).RawQuery = "%24top=999" ∧
      ParseQuery (getRequest c apicall none).RawQuery
        = ([(utf8Bytes "$top", utf8Bytes "999")], false)) := by
  have hF := refreshToken_trace L cli (tr ++ [.apiCall apicall])
  have hapi : requests (tr ++ [Event.apiCall apicall]) = requests tr := by
    simp [requests_append, requests]
  have hrf : refreshes (tr ++ [Event.apiCall apicall]) = refreshes tr := by
    simp [refreshes_append, refreshes]
  rw [hapi] at hF
  rw [hrf] at hF
  refine ⟨?_, ?_, ?_, ⟨rfl, rfl⟩, ?_⟩
  · cases h : cli.token.WantsToBeRefreshed (L.Now (tr ++ [.apiCall apicall])) with
    | false =>
      rw [makeGETAPICall_valid L u cli apicall getParams v tr h]
      show refreshes (performRequest L u _ v _).events = _
      rw [(performRequest_trace L u _ v _).2.2, hrf]
      simp
    | true =>
      cases he : (refreshToken L cli (tr ++ [.apiCall apicall])).err with
      | some e =>
        rw [makeGETAPICall_stale_fail L u cli apicall getParams v tr h e he]
        show refreshes (refreshToken L cli _).events = _
        rw [hF.2.2]
        simp
      | none =>
        rw [makeGETAPICall_stale_ok L u cli apicall getParams v tr h he]
        show refreshes (performRequest L u _ v _).events = _
        rw [(performRequest_trace L u _ v _).2.2, hF.2.2]
        simp
  · intro h
    rw [makeGETAPICall_valid L u cli apicall getParams v tr h]
    show requests (performRequest L u _ v _).events = _
    rw [(performRequest_trace L u _ v _).1, hapi]
  · intro h
    refine ⟨?_, ?_⟩
    · intro e he
      rw [makeGETAPICall_stale_fail L u cli apicall getParams v tr h e he]
      exact ⟨rfl, hF.1⟩
    · intro he
      have hten : cli.TenantID ≠ "" := by
        intro h0
        simp [refreshToken, h0] at he
      rw [makeGETAPICall_stale_ok L u cli apicall getParams v tr h he]
      show requests (performRequest L u _ v _).events = _
      rw [(performRequest_trace L u _ v _).1, hF.1, if_neg hten]
      simp
  · intro c
    have h999 : toString MaxPageSize = "999" := by decide
    have henc : (Values.Add [] "$top" "999").Encode = "%24top=999" := by decide
    have hpair : "%24top=999" = QueryEscape "$top" ++ "=" ++ QueryEscape "999" := by decide
    have hraw : (getRequest c apicall getParams).RawQuery
        = (Values.Add (getParams.getD []) "$top" "999").Encode := by
      simp only [getRequest, h999]
    have hnone : (getRequest c apicall none).RawQuery = "%24top=999" := by
      simp only [getRequest, h999, Option.getD_none, henc]
    refine ⟨rfl, rfl, rfl, hraw, ?_, ?_, Values.pairs_no_amp _, hpair, by decide, by decide,
      hnone, ?_⟩
    · rw [hraw, Values.Encode_eq_pairs]
    · obtain ⟨vs, hk, hx⟩ := Values.Add_mem (getParams.getD []) "$top" "999"
      rw [hpair]
      exact Values.pairs_mem _ _ vs _ hk hx
    · rw [hnone]
      decide

/-! ## NewGraphClient and refreshToken (client.go) -/

/-- C6, on the code: `NewGraphClient` fails before any request only for an
empty tenant identifier.  With an empty application identifier, or an empty
client secret, and a tenant that is not empty, it sends the token request to
the network, whatever the network is.  The other way to set a client up,
`Client.UnmarshalJSON`, does reject each of the three empty credentials, and
does so before any request. -/
theorem NewGraphClient_empty_credentials (L : Lib) :
    (∀ a c : String, (NewGraphClient L "" a c []).err = some (.errorf0 "tenant ID is empty") ∧
      requests (NewGraphClient L "" a c []).events = []) ∧
    requests (NewGraphClient L "tenant" "" "secret" []).events
      = [tokenRequest ⟨"tenant", "", "secret", Token.zero⟩] ∧
    requests (NewGraphClient L "tenant" "app" "" []).events
      = [tokenRequest ⟨"tenant", "app", "", Token.zero⟩] ∧
    (∀ (u : Unmarshal Credentials) (cli : Client) (data : String) (tr : List Event),
      (u data ⟨"", "", ""⟩).2 = none →
      ((u data ⟨"", "", ""⟩).1.TenantID = "" ∨ (u data ⟨"", "", ""⟩).1.ApplicationID = "" ∨
        (u data ⟨"", "", ""⟩).1.ClientSecret = "") →
      (cli.UnmarshalJSON L u data tr).err ≠ none ∧
      (cli.UnmarshalJSON L u data tr).events = tr) := by
  refine ⟨?_, ?_, ?_, ?_⟩
  · intro a c
    simp [NewGraphClient, refreshToken, requests]
  · have h := (refreshToken_trace L ⟨"tenant", "", "secret", Token.zero⟩ []).1
    have hne : ¬ ("tenant" = "") := by decide
    simpa [NewGraphClient, requests, hne] using h
  · have h := (refreshToken_trace L ⟨"tenant", "app", "", Token.zero⟩ []).1
    have hne : ¬ ("tenant" = "") := by decide
    simpa [NewGraphClient, requests, hne] using h
  · intro u cli data tr hok hempty
    by_cases ht : (u data ⟨"", "", ""⟩).1.TenantID = ""
    · simp [Client.UnmarshalJSON, hok, ht]
    · by_cases ha : (u data ⟨"", "", ""⟩).1.ApplicationID = ""
      · simp [Client.UnmarshalJSON, hok, ht, ha]
      · have hc : (u data ⟨"", "", ""⟩).1.ClientSecret = "" := by
          rcases hempty with h | h | h
          · exact absurd h ht
          · exact absurd h ha
          · exact h
        simp [Client.UnmarshalJSON, hok, ht, ha, hc]

/-- C7: `refreshToken` is atomic on failure.  Whenever it returns an error the
client is exactly what it was, and it does return an error on a transport
error, on a response outside 200..299, on a 2xx response whose body fails to
decode, and on a response whose body cannot be read.  The credentials never change, and when it returns no error the
stored token is, as a whole, the token decoded from the body of a 2xx
response into a fresh `Token`. -/
theorem refreshToken_atomic (L : Lib) (cli : Client) (tr : List Event) :
    ((refreshToken L cli tr).err ≠ none → (refreshToken L cli tr).val = cli) ∧
    (∀ e, L.Do (tr ++ [.refresh]) (tokenRequest cli) = .fail e →
      (refreshToken L cli tr).err ≠ none ∧ (refreshToken L cli tr).val = cli) ∧
    (∀ s b re, L.Do (tr ++ [.refresh]) (tokenRequest cli) = .resp s b re →
      (s < 200 ∨ s > 299) →
      (refreshToken L cli tr).err ≠ none ∧ (refreshToken L cli tr).val = cli) ∧
    (∀ s b, L.Do (tr ++ [.refresh]) (tokenRequest cli) = .resp s b none →
      (200 ≤ s ∧ s ≤ 299) → (L.jsonToken b Token.zero).2 ≠ none →
      (refreshToken L cli tr).err ≠ none ∧ (refreshToken L cli tr).val = cli) ∧
    (∀ s b e, L.Do (tr ++ [.refresh]) (tokenRequest cli) = .resp s b (some e) →
      (refreshToken L cli tr).err ≠ none ∧ (refreshToken L cli tr).val = cli) ∧
    ((refreshToken L cli tr).err = none →
      ∃ s b, L.Do (tr ++ [.refresh]) (tokenRequest cli) = .resp s b none ∧
        (200 ≤ s ∧ s ≤ 299) ∧ (L.jsonToken b Token.zero).2 = none ∧
        (refreshToken L cli tr).val = { cli with token := (L.jsonToken b Token.zero).1 }) ∧
    (refreshToken L cli tr).val.TenantID = cli.TenantID ∧
    (refreshToken L cli tr).val.ApplicationID = cli.ApplicationID ∧
    (refreshToken L cli tr).val.ClientSecret = cli.ClientSecret := by
  have hc := refreshToken_client L cli tr
  have key : (refreshToken L cli tr).err ≠ none →
      ((refreshToken L cli tr).err ≠ none ∧ (refreshToken L cli tr).val = cli) :=
    fun h => ⟨h, hc.2.2.2 h⟩
  refine ⟨hc.2.2.2, ?_, ?_, ?_, ?_, ?_, hc.1, hc.2.1, hc.2.2.1⟩
  · intro e he
    refine key ?_
    by_cases h : cli.TenantID = ""
    · simp [refreshToken, h]
    · simp [refreshToken, h, performRequest, he]
  · intro s b re he hs
    refine key ?_
    by_cases h : cli.TenantID = ""
    · simp [refreshToken, h]
    · simp [refreshToken, h, performRequest, he, hs]
  · intro s b he hs hd
    refine key ?_
    have hs2 : ¬ (s < 200 ∨ s > 299) := by omega
    by_cases h : cli.TenantID = ""
    · simp [refreshToken, h]
    · cases hj : (L.jsonToken b Token.zero).2 with
      | none => exact absurd hj hd
      | some e => simp [refreshToken, h, performRequest, he, hs2, hj]
  · intro s b e he
    refine key ?_
    by_cases h : cli.TenantID = ""
    · simp [refreshToken, h]
    · by_cases hs : s < 200 ∨ s > 299
      · simp [refreshToken, h, performRequest, he, hs]
      · simp [refreshToken, h, performRequest, he, hs]
  · intro hok
    by_cases h : cli.TenantID = ""
    · simp [refreshToken, h] at hok
    · cases hd : L.Do (tr ++ [.refresh]) (tokenRequest cli) with
      | fail e => simp [refreshToken, h, performRequest, hd] at hok
      | resp s b re =>
        by_cases hs : s < 200 ∨ s > 299
        · simp [refreshToken, h, performRequest, hd, hs] at hok
        · cases re with
          | some e => simp [refreshToken, h, performRequest, hd, hs] at hok
          | none =>
            cases hj : (L.jsonToken b Token.zero).2 with
            | some e => simp [refreshToken, h, performRequest, hd, hs, hj] at hok
            | none =>
              refine ⟨s, b, rfl, by omega, hj, ?_⟩
              simp [refreshToken, h, performRequest, hd, hs, hj]

/-! ## Resource paths (drive.go) -/

/-- C1: for every drive and every path `p`, `ListChildren` enters
`makeGETAPICall` with a resource that depends only on `t`, the path `p` with
all leading and trailing `'/'` removed (such a `t` exists, and it is unique):
`/drives/{id}/items/root/children` when `t` is empty or `root`, and
`/drives/{id}/items/root:/{t}:/children` otherwise.  So the paths "", "/" and
"root" give the root-children resource, "a/b/" and "/a/b" the resource of
"a/b". -/
theorem ListChildren_resource (L : Lib) (drv : Drive) (p : String) (tr : List Event) :
    (∃ t, IsSlashTrimOf p t) ∧
    (∀ t, IsSlashTrimOf p t →
      (∃ rest, (drv.ListChildren L p tr).events
          = tr ++ .apiCall (listChildrenSource drv.ID p) :: rest) ∧
      listChildrenSource drv.ID p =
        if t = "" ∨ t = "root" then "/drives/" ++ drv.ID ++ "/items/root/children"
        else "/drives/" ++ drv.ID ++ "/items/root:/" ++ t ++ ":/children") ∧
    listChildrenSource drv.ID "" = "/drives/" ++ drv.ID ++ "/items/root/children" ∧
    listChildrenSource drv.ID "/" = "/drives/" ++ drv.ID ++ "/items/root/children" ∧
    listChildrenSource drv.ID "root" = "/drives/" ++ drv.ID ++ "/items/root/children" ∧
    listChildrenSource drv.ID "a/b/" = "/drives/" ++ drv.ID ++ "/items/root:/a/b:/children" ∧
    listChildrenSource drv.ID "/a/b" = "/drives/" ++ drv.ID ++ "/items/root:/a/b:/children" := by
  refine ⟨⟨_, Trim_isSlashTrimOf p⟩, ?_, ?_, ?_, ?_, ?_, ?_⟩
  · intro t ht
    refine ⟨?_, ?_⟩
    · rw [ListChildren_events]
      exact makeGETAPICall_events _ _ _ _ _ _ _
    · have h := Trim_eq_of_isSlashTrimOf p t ht
      unfold listChildrenSource
      simp only [h]
      by_cases h1 : t = "" ∨ t = "root"
      · rw [if_pos h1, if_pos (Or.symm h1)]
      · rw [if_neg h1, if_neg (fun h2 => h1 (Or.symm h2))]
  · have h : Trim "" '/' = "" := by decide
    simp [listChildrenSource, h]
  · have h : Trim "/" '/' = "" := by decide
    simp [listChildrenSource, h]
  · have h : Trim "root" '/' = "root" := by decide
    simp [listChildrenSource, h]
  · have h : Trim "a/b/" '/' = "a/b" := by decide
    have h2 : ¬ ("a/b" = "root" ∨ "a/b" = "") := by decide
    have e : "/items/root:/" ++ ("a/b" ++ ":/children") = "/items/root:/a/b:/children" := by
      decide
    simp only [listChildrenSource, h, if_neg h2, String.append_assoc, e]
  · have h : Trim "/a/b" '/' = "a/b" := by decide
    have h2 : ¬ ("a/b" = "root" ∨ "a/b" = "") := by decide
    have e : "/items/root:/" ++ ("a/b" ++ ":/children") = "/items/root:/a/b:/children" := by
      decide
    simp only [listChildrenSource, h, if_neg h2, String.append_assoc, e]

/-- C2: for every drive and every path `p`, with `t` the path `p` without its
leading and trailing `'/'`, `Item` enters `makeGETAPICall` with the resource
`/drives/{id}/items/root` when `t` is empty or `root`, and with
`/drives/{id}/root:/{t}` otherwise; `Item("/")` asks for the root item. -/
theorem Item_resource (L : Lib) (drv : Drive) (p : String) (tr : List Event) :
    (∃ t, IsSlashTrimOf p t) ∧
    (∀ t, IsSlashTrimOf p t →
      (∃ rest, (drv.Item L p tr).events = tr ++ .apiCall (itemSource drv.ID p) :: rest) ∧
      itemSource drv.ID p =
        if t = "" ∨ t = "root" then "/drives/" ++ drv.ID ++ "/items/root"
        else "/drives/" ++ drv.ID ++ "/root:/" ++ t) ∧
    itemSource drv.ID "/" = "/drives/" ++ drv.ID ++ "/items/root" := by
  refine ⟨⟨_, Trim_isSlashTrimOf p⟩, ?_, ?_⟩
  · intro t ht
    refine ⟨?_, ?_⟩
    · rw [Item_events]
      exact makeGETAPICall_events _ _ _ _ _ _ _
    · have h := Trim_eq_of_isSlashTrimOf p t ht
      unfold itemSource
      simp only [h]
      by_cases h1 : t = "" ∨ t = "root"
      · rw [if_pos h1, if_pos (Or.symm h1)]
      · rw [if_neg h1, if_neg (fun h2 => h1 (Or.symm h2))]
  · have h : Trim "/" '/' = "" := by decide
    simp [itemSource, h]

end Graph

namespace Graph

/-- C10, as the code has it: in the root case the resource of `Item`,
`/drives/{id}/items/root`, has the segment `/items/`, and the resource of
`ListChildren` is that resource followed by `/children`.  It is for any other
path that `Item` leaves out the `/items` segment which `ListChildren` has:
`/drives/{id}/root:/{t}` against `/drives/{id}/items/root:/{t}:/children`. -/
theorem Item_ListChildren_segments (d p : String) :
    ((Trim p '/' = "" ∨ Trim p '/' = "root") →
      itemSource d p = "/drives/" ++ d ++ "/items/" ++ "root" ∧
      listChildrenSource d p = itemSource d p ++ "/children") ∧
    (¬ (Trim p '/' = "" ∨ Trim p '/' = "root") →
      itemSource d p = "/drives/" ++ d ++ "/root:/" ++ Trim p '/' ∧
      listChildrenSource d p
        = "/drives/" ++ d ++ "/items" ++ "/root:/" ++ Trim p '/' ++ ":/children") := by
  have e1 : "/items/" ++ "root" = "/items/root" := by decide
  have e2 : "/items/root" ++ "/children" = "/items/root/children" := by decide
  have e3 : ∀ x : String, "/items" ++ ("/root:/" ++ x) = "/items/root:/" ++ x := by
    intro x
    rw [← String.append_assoc]
    rfl
  refine ⟨?_, ?_⟩
  · intro h
    have h1 : Trim p '/' = "root" ∨ Trim p '/' = "" := Or.symm h
    simp only [itemSource, listChildrenSource, if_pos h1, String.append_assoc, e1, e2,
      and_self]
  · intro h
    have h1 : ¬ (Trim p '/' = "root" ∨ Trim p '/' = "") := fun h2 => h (Or.symm h2)
    simp only [itemSource, listChildrenSource, if_neg h1, String.append_assoc, e3, and_self]

/-- C10, the claim as stated fails: for the drive `D` and each of the root
paths "", "/" and "root", the resource `Item` builds is `/drives/D/items/root`,
which has the segment `/items/`. -/
theorem Item_root_keeps_items_segment :
    itemSource "D" "" = "/drives/D/items/root" ∧
    itemSource "D" "/" = "/drives/D/items/root" ∧
    itemSource "D" "root" = "/drives/D/items/root" ∧
    "/items/".data <:+: (itemSource "D" "").data ∧
    "/items/".data <:+: (itemSource "D" "/").data ∧
    "/items/".data <:+: (itemSource "D" "root").data := by
  have h : "/items/".data <:+: "/drives/D/items/root".data :=
    ⟨"/drives/D".data, "root".data, by decide⟩
  have h1 : itemSource "D" "" = "/drives/D/items/root" := by decide
  have h2 : itemSource "D" "/" = "/drives/D/items/root" := by decide
  have h3 : itemSource "D" "root" = "/drives/D/items/root" := by decide
  refine ⟨h1, h2, h3, ?_, ?_, ?_⟩
  · rw [h1]; exact h
  · rw [h2]; exact h
  · rw [h3]; exact h

end Graph

/-! ## The front ends -/

namespace Front

open Graph

/-- C8, as the code has it: in both handlers an error of `ListChildren` gives
the status 404 when it is a `ReqError` whose code is `itemNotFound` and the
status 500 when it is any other error; an error of the follow-up `Item` call
gives the status 500 in the lambda handler, whatever the error. -/
theorem handlers_error_status (L : Lib) (V : View) (drv : Drive) (path : String)
    (event : Lambda.Event) (tr : List Graph.Event)
    (hp : (event.PathParameters.lookup "proxy").getD "" = path) :
    (∀ e, (drv.ListChildren L path tr).res = .error e →
      ((∃ re, e = GoError.req re ∧ re.Err.Code = "itemNotFound") →
        Server.status (Server.ServeHTTP L V drv path tr).1 = 404 ∧
        (Lambda.Serve L V drv event tr).1.1.StatusCode = 404) ∧
      ((¬ ∃ re, e = GoError.req re ∧ re.Err.Code = "itemNotFound") →
        Server.status (Server.ServeHTTP L V drv path tr).1 = 500 ∧
        (Lambda.Serve L V drv event tr).1.1.StatusCode = 500)) ∧
    (∀ e, (drv.ListChildren L path tr).res = .ok [] →
      ((drv.ListChildren L path tr).drv.Item L path (drv.ListChildren L path tr).events).res
        = .error e →
      (Lambda.Serve L V drv event tr).1.1.StatusCode = 500) := by
  have hnf : ∀ e, isItemNotFound e = true ↔
      ∃ re, e = GoError.req re ∧ re.Err.Code = "itemNotFound" := by
    intro e
    cases e with
    | req re => simp [isItemNotFound]
    | lib m => simp [isItemNotFound]
    | errorf0 f => simp [isItemNotFound]
    | errorf f c => simp [isItemNotFound]
  refine ⟨?_, ?_⟩
  · intro e he
    refine ⟨?_, ?_⟩
    · intro h
      have h1 := (hnf e).2 h
      simp [Server.ServeHTTP, Lambda.Serve, hp, he, h1, Server.status]
    · intro h
      have h1 : isItemNotFound e = false := by
        cases hb : isItemNotFound e with
        | false => rfl
        | true => exact absurd ((hnf e).1 hb) h
      simp [Server.ServeHTTP, Lambda.Serve, hp, he, h1, Server.status]
  · intro e hl hi
    simp [Lambda.Serve, hp, hl, hi]

/-- C9, as the code has it: when `ListChildren` gives no item and the
follow-up `Item` call succeeds, both handlers answer with a redirect (307) to
the download URL of the item, empty or not; neither looks at the URL.  When
`ListChildren` gives items, `Item` is not called (the only resource asked for
is that of `ListChildren`) and the template is run on the listing, one entry
for each item: the server writes its output, the lambda handler returns it
with the status 200, or 500 if the template fails. -/
theorem handlers_redirect_or_listing (L : Lib) (V : View) (drv : Drive) (path : String)
    (event : Lambda.Event) (tr : List Graph.Event)
    (hp : (event.PathParameters.lookup "proxy").getD "" = path) :
    (∀ item, (drv.ListChildren L path tr).res = .ok [] →
      ((drv.ListChildren L path tr).drv.Item L path (drv.ListChildren L path tr).events).res
        = .ok item →
      (Server.ServeHTTP L V drv path tr).1 = [.redirect item.DownloadURL 307] ∧
      Server.status (Server.ServeHTTP L V drv path tr).1 = 307 ∧
      (Lambda.Serve L V drv event tr).1.1.StatusCode = 307 ∧
      (Lambda.Serve L V drv event tr).1.1.Headers = [("Location", item.DownloadURL)] ∧
      (Lambda.Serve L V drv event tr).1.2 = none) ∧
    (∀ items, (drv.ListChildren L path tr).res = .ok items → items ≠ [] →
      apiCalls (Server.ServeHTTP L V drv path tr).2.2
        = apiCalls tr ++ [listChildrenSource drv.ID path] ∧
      apiCalls (Lambda.Serve L V drv event tr).2.2
        = apiCalls tr ++ [listChildrenSource drv.ID path] ∧
      (Server.ServeHTTP L V drv path tr).1
        = [.execute ⟨Server.parentOf V path, path, dataItems V items⟩] ∧
      (dataItems V items).length = items.length ∧
      ((V.Execute ⟨Lambda.parentOf V path, path, dataItems V items⟩).2 = none →
        (Lambda.Serve L V drv event tr).1.1.StatusCode = 200 ∧
        (Lambda.Serve L V drv event tr).1.1.Body
          = (V.Execute ⟨Lambda.parentOf V path, path, dataItems V items⟩).1) ∧
      ((V.Execute ⟨Lambda.parentOf V path, path, dataItems V items⟩).2 ≠ none →
        (Lambda.Serve L V drv event tr).1.1.StatusCode = 500)) := by
  refine ⟨?_, ?_⟩
  · intro item hl hi
    simp [Server.ServeHTTP, Lambda.Serve, hp, hl, hi, Server.status]
  · intro items hl hne
    have hlen : ¬ (items.length = 0) := by
      intro h0
      exact hne (List.length_eq_zero.mp h0)
    have hev : apiCalls (drv.ListChildren L path tr).events
        = apiCalls tr ++ [listChildrenSource drv.ID path] := by
      rw [ListChildren_events]
      exact makeGETAPICall_apiCalls _ _ _ _ _ _ _
    refine ⟨?_, ?_, ?_, ?_, ?_, ?_⟩
    · simpa [Server.ServeHTTP, hl, hlen] using hev
    · simp only [Lambda.Serve, hp, hl, hlen, if_false]
      split <;> exact hev
    · simp [Server.ServeHTTP, hl, hlen]
    · simp [dataItems]
    · intro hx
      simp [Lambda.Serve, hp, hl, hlen, hx]
    · intro hx
      cases hy : (V.Execute ⟨Lambda.parentOf V path, path, dataItems V items⟩).2 with
      | none => exact absurd hy hx
      | some e => simp [Lambda.Serve, hp, hl, hlen, hy]

end Front

/-! ## The theorems at the scenarios -/

namespace Scenario

open Graph Front

/-- C4 at a scenario: the network answers 404 with the `itemNotFound` body, so
`performRequest` returns `NewErr(404, body)` and does not decode into the
destination. -/
theorem performRequest_status_witness :
    notFound.Do [] (getRequest client "/drives/D/items/root" none)
      = .resp 404 notFoundBody none ∧
    (performRequest notFound notFound.jsonItem (getRequest client "/drives/D/items/root" none)
        Item.zero []).err = some (.req (NewErr notFound.jsonReqError 404 notFoundBody)) ∧
    (performRequest notFound notFound.jsonItem (getRequest client "/drives/D/items/root" none)
        Item.zero []).events
      = [] ++ [.httpDo (getRequest client "/drives/D/items/root" none),
          .newErr 404 notFoundBody] :=
  ⟨rfl,
    ((performRequest_status notFound notFound.jsonItem
        (getRequest client "/drives/D/items/root" none) Item.zero [] 404 notFoundBody none
        rfl).1 (by decide)).1,
    ((performRequest_status notFound notFound.jsonItem
        (getRequest client "/drives/D/items/root" none) Item.zero [] 404 notFoundBody none
        rfl).1 (by decide)).2.2⟩

set_option maxRecDepth 8000 in
/-- C5 at two scenarios.  A client with a valid token: no exchange, one
request, the GET on the API base with the query `%24top=999`, which reads as
`$top` = `999`.  A client with a stale token and a network that answers 200:
one exchange, the token request first, then the GET. -/
theorem makeGETAPICall_exchange_witness :
    client.token.WantsToBeRefreshed 100 = false ∧
    refreshes (makeGETAPICall folderWithFile folderWithFile.jsonItem client
        "/drives/D/items/root" none Item.zero []).events = 0 ∧
    requests (makeGETAPICall folderWithFile folderWithFile.jsonItem client
        "/drives/D/items/root" none Item.zero []).events
      = requests [] ++ [getRequest client "/drives/D/items/root" none] ∧
    (getRequest client "/drives/D/items/root" none).RawQuery = "%24top=999" ∧
    ParseQuery (getRequest client "/drives/D/items/root" none).RawQuery
      = ([(utf8Bytes "$top", utf8Bytes "999")], false) ∧
    staleClient.token.WantsToBeRefreshed 100 = true ∧
    refreshes (makeGETAPICall folderWithFile folderWithFile.jsonItem staleClient
        "/drives/D/items/root" none Item.zero []).events = 1 ∧
    requests (makeGETAPICall folderWithFile folderWithFile.jsonItem staleClient
        "/drives/D/items/root" none Item.zero []).events
      = [tokenRequest staleClient, getRequest staleClient "/drives/D/items/root" none] :=
  ⟨by decide, by decide,
    (makeGETAPICall_exchange folderWithFile folderWithFile.jsonItem client
      "/drives/D/items/root" none Item.zero []).2.1 (by decide),
    by decide, by decide, by decide, by decide, by decide⟩

/-- C8 at a scenario: the path does not exist, `ListChildren` returns the
`ReqError` with the code `itemNotFound`, and both handlers answer 404. -/
theorem handlers_error_status_witness :
    (drive.ListChildren notFound "nope" []).res = .error (.req notFoundErr) ∧
    Server.status (Server.ServeHTTP notFound view drive "nope" []).1 = 404 ∧
    (Lambda.Serve notFound view drive (event "nope") []).1.1.StatusCode = 404 :=
  ⟨by decide,
    ((handlers_error_status notFound view drive "nope" (event "nope") [] (by decide)).1
      (.req notFoundErr) (by decide)).1 ⟨notFoundErr, rfl, by decide⟩⟩

/-- C8, the claim as stated fails: `ListChildren` gives no item, then `Item`
returns the `ReqError` with the code `itemNotFound`; the lambda handler
answers 500, not 404 (and the server handler writes the text of the error
without a status, which is a 200). -/
theorem handlers_item_error_not_404 :
    (drive.ListChildren listedThenGone "gone" []).res = .ok [] ∧
    ((drive.ListChildren listedThenGone "gone" []).drv.Item listedThenGone "gone"
        (drive.ListChildren listedThenGone "gone" []).events).res
      = .error (.req notFoundErr) ∧
    notFoundErr.Err.Code = "itemNotFound" ∧
    (Lambda.Serve listedThenGone view drive (event "gone") []).1.1.StatusCode = 500 ∧
    (Server.ServeHTTP listedThenGone view drive "gone" []).1
      = [.writeError (.req notFoundErr)] ∧
    Server.status (Server.ServeHTTP listedThenGone view drive "gone" []).1 = 200 := by
  refine ⟨by decide, by decide, by decide, by decide, by decide, by decide⟩

/-- C9 at a scenario: the folder holds a file, so `Item` is not called and
both handlers run the template on a listing of one entry. -/
theorem handlers_redirect_or_listing_witness :
    (drive.ListChildren folderWithFile "docs" []).res = .ok [file] ∧
    apiCalls (Server.ServeHTTP folderWithFile view drive "docs" []).2.2
      = apiCalls [] ++ [listChildrenSource drive.ID "docs"] ∧
    apiCalls (Lambda.Serve folderWithFile view drive (event "docs") []).2.2
      = apiCalls [] ++ [listChildrenSource drive.ID "docs"] ∧
    (Server.ServeHTTP folderWithFile view drive "docs" []).1
      = [.execute ⟨Server.parentOf view "docs", "docs", dataItems view [file]⟩] :=
  ⟨by decide,
    ((handlers_redirect_or_listing folderWithFile view drive "docs" (event "docs") []
      (by decide)).2 [file] (by decide) (by decide)).1,
    ((handlers_redirect_or_listing folderWithFile view drive "docs" (event "docs") []
      (by decide)).2 [file] (by decide) (by decide)).2.1,
    ((handlers_redirect_or_listing folderWithFile view drive "docs" (event "docs") []
      (by decide)).2 [file] (by decide) (by decide)).2.2.1⟩

/-- C9, the claim as stated fails: `ListChildren` gives no item and `Item`
succeeds with an empty folder, whose download URL is empty; both handlers
still answer with the redirect 307, to the empty URL, and not with an
error. -/
theorem handlers_redirect_empty_url :
    (drive.ListChildren folderWithoutChildren "empty" []).res = .ok [] ∧
    ((drive.ListChildren folderWithoutChildren "empty" []).drv.Item folderWithoutChildren
        "empty" (drive.ListChildren folderWithoutChildren "empty" []).events).res
      = .ok emptyFolder ∧
    emptyFolder.DownloadURL = "" ∧
    (Server.ServeHTTP folderWithoutChildren view drive "empty" []).1 = [.redirect "" 307] ∧
    Server.status (Server.ServeHTTP folderWithoutChildren view drive "empty" []).1 = 307 ∧
    (Lambda.Serve folderWithoutChildren view drive (event "empty") []).1.1
      = ⟨false, 307, "", [("Location", "")]⟩ ∧
    (Lambda.Serve folderWithoutChildren view drive (event "empty") []).1.2 = none := by
  refine ⟨by decide, by decide, by decide, by decide, by decide, by decide, by decide⟩

end Scenario

/-! ## size2readable (both front ends) -/

namespace Front

theorem wrapInt64_id (x : Int) (h1 : -2 ^ 63 ≤ x) (h2 : x < 2 ^ 63) : wrapInt64 x = x := by
  unfold wrapInt64
  omega

theorem sizeLoop_round (fuel : Nat) (n div exp : Int) (h : 1024 ≤ n) :
    sizeLoop (fuel + 1) n div exp
      = sizeLoop fuel (n / 1024) (wrapInt64 (div * 1024)) (exp + 1) := by
  have hn : n.tdiv 1024 = n / 1024 := Int.tdiv_eq_ediv (by omega) (by omega)
  simp only [sizeLoop, ge_iff_le, h, if_true, hn]

theorem sizeLoop_exit (fuel : Nat) (n div exp : Int) (h : n < 1024) :
    sizeLoop (fuel + 1) n div exp = some (div, exp) := by
  have h' : ¬ (1024 ≤ n) := by omega
  simp only [sizeLoop, ge_iff_le, h', if_false]


theorem sizeLoop_result (size : Int) (h1 : 1024 ≤ size) (h2 : size < 2 ^ 63) :
    ∃ exp : Nat, exp ≤ 5 ∧ (1024 : Int) ^ (exp + 1) ≤ size ∧ size < 1024 * 1024 ^ (exp + 1) ∧
      sizeLoop 64 (size.tdiv 1024) 1024 0 = some (1024 ^ (exp + 1), (exp : Int)) := by
  have hn : size.tdiv 1024 = size / 1024 := Int.tdiv_eq_ediv (by omega) (by omega)
  rw [hn]
  by_cases c1 : size < 1024 ^ 2
  · refine ⟨0, by omega, by omega, by omega, ?_⟩
    rw [sizeLoop_exit _ _ _ _ (by omega)]
    norm_num
  by_cases c2 : size < 1024 ^ 3
  · refine ⟨1, by omega, by omega, by omega, ?_⟩
    rw [sizeLoop_round _ _ _ _ (by omega), sizeLoop_exit _ _ _ _ (by omega),
      wrapInt64_id _ (by norm_num) (by norm_num)]
    norm_num
  by_cases c3 : size < 1024 ^ 4
  · refine ⟨2, by omega, by omega, by omega, ?_⟩
    rw [sizeLoop_round _ _ _ _ (by omega), sizeLoop_round _ _ _ _ (by omega),
      sizeLoop_exit _ _ _ _ (by omega), wrapInt64_id (1024 * 1024) (by norm_num) (by norm_num),
      wrapInt64_id _ (by norm_num) (by norm_num)]
    norm_num
  by_cases c4 : size < 1024 ^ 5
  · refine ⟨3, by omega, by omega, by omega, ?_⟩
    rw [sizeLoop_round _ _ _ _ (by omega), sizeLoop_round _ _ _ _ (by omega),
      sizeLoop_round _ _ _ _ (by omega), sizeLoop_exit _ _ _ _ (by omega),
      wrapInt64_id (1024 * 1024) (by norm_num) (by norm_num),
      wrapInt64_id (1024 * 1024 * 1024) (by norm_num) (by norm_num),
      wrapInt64_id _ (by norm_num) (by norm_num)]
    norm_num
  by_cases c5 : size < 1024 ^ 6
  · refine ⟨4, by omega, by omega, by omega, ?_⟩
    rw [sizeLoop_round _ _ _ _ (by omega), sizeLoop_round _ _ _ _ (by omega),
      sizeLoop_round _ _ _ _ (by omega), sizeLoop_round _ _ _ _ (by omega),
      sizeLoop_exit _ _ _ _ (by omega),
      wrapInt64_id (1024 * 1024) (by norm_num) (by norm_num),
      wrapInt64_id (1024 * 1024 * 1024) (by norm_num) (by norm_num),
      wrapInt64_id (1024 * 1024 * 1024 * 1024) (by norm_num) (by norm_num),
      wrapInt64_id _ (by norm_num) (by norm_num)]
    norm_num
  · refine ⟨5, by omega, by omega, by omega, ?_⟩
    rw [sizeLoop_round _ _ _ _ (by omega), sizeLoop_round _ _ _ _ (by omega),
      sizeLoop_round _ _ _ _ (by omega), sizeLoop_round _ _ _ _ (by omega),
      sizeLoop_round _ _ _ _ (by omega), sizeLoop_exit _ _ _ _ (by omega),
      wrapInt64_id (1024 * 1024) (by norm_num) (by norm_num),
      wrapInt64_id (1024 * 1024 * 1024) (by norm_num) (by norm_num),
      wrapInt64_id (1024 * 1024 * 1024 * 1024) (by norm_num) (by norm_num),
      wrapInt64_id (1024 * 1024 * 1024 * 1024 * 1024) (by norm_num) (by norm_num),
      wrapInt64_id _ (by norm_num) (by norm_num)]
    norm_num

end Front

namespace Front

/-- C11: for every 64-bit signed `size`, `size2readable` returns: it never
indexes `KMGTPE` out of range and its divisor never overflows.  A size under
1024, negative sizes included, takes the plain-bytes branch.  For a size of
1024 or more the loop ends with `0 <= exp <= 5`, `div = 1024^(exp+1) <= 2^60`
and `div <= size < 1024 * div` as integers; every product `div * 1024` the
loop computes is the exact one, and `KMGTPE[exp]` is a character of the
string. -/
theorem size2readable_safe (size : Int) (_hlo : -2 ^ 63 ≤ size) (hhi : size < 2 ^ 63) :
    (size < 1024 → size2readable size = .ok (.bytes size)) ∧
    (1024 ≤ size →
      ∃ (div exp : Int) (unit : Char),
        sizeLoop 64 (size.tdiv 1024) 1024 0 = some (div, exp) ∧
        0 ≤ exp ∧ exp ≤ 5 ∧ div = 1024 ^ (exp.toNat + 1) ∧ div ≤ 2 ^ 60 ∧
        div ≤ size ∧ size < 1024 * div ∧
        (∀ j : Nat, j ≤ exp.toNat → wrapInt64 (1024 ^ j * 1024) = 1024 ^ j * 1024) ∧
        "KMGTPE".data[exp.toNat]? = some unit ∧
        size2readable size = .ok (.scaled size div unit)) := by
  refine ⟨?_, ?_⟩
  · intro h
    simp [size2readable, h]
  · intro h
    obtain ⟨exp, he, hdiv, hsize, hloop⟩ := sizeLoop_result size h hhi
    have hnot : ¬ (size < 1024) := by omega
    have hunit : ∃ unit : Char, "KMGTPE".data[exp]? = some unit := by
      interval_cases exp
      · exact ⟨'K', by decide⟩
      · exact ⟨'M', by decide⟩
      · exact ⟨'G', by decide⟩
      · exact ⟨'T', by decide⟩
      · exact ⟨'P', by decide⟩
      · exact ⟨'E', by decide⟩
    obtain ⟨unit, hu⟩ := hunit
    have hpow : (1024 : Int) ^ (exp + 1) ≤ 2 ^ 60 := by
      interval_cases exp <;> norm_num
    refine ⟨1024 ^ (exp + 1), (exp : Int), unit, hloop, by omega, by omega, by simp, hpow,
      hdiv, hsize, ?_, by simpa using hu, ?_⟩
    · intro j hj
      have hj5 : j ≤ 5 := by
        have : ((exp : Int)).toNat = exp := Int.toNat_natCast exp
        omega
      apply wrapInt64_id
      · interval_cases j <;> norm_num
      · interval_cases j <;> norm_num
    · have hneg : ¬ ((exp : Int) < 0) := by omega
      simp only [size2readable, hnot, if_false, hloop, hneg, Int.toNat_natCast, hu]

end Front

namespace Scenario

open Front

set_option maxRecDepth 8000 in
/-- C11 at the largest `int64`: the loop runs five rounds, the divisor ends
at `2^60` and the unit is `E`. -/
theorem size2readable_safe_witness :
    (-2 ^ 63 : Int) ≤ 9223372036854775807 ∧ (9223372036854775807 : Int) < 2 ^ 63 ∧
    size2readable 9223372036854775807
      = .ok (.scaled 9223372036854775807 1152921504606846976 'E') ∧
    (∃ (div exp : Int) (unit : Char),
      sizeLoop 64 ((9223372036854775807 : Int).tdiv 1024) 1024 0 = some (div, exp) ∧
      0 ≤ exp ∧ exp ≤ 5 ∧ div = 1024 ^ (exp.toNat + 1) ∧ div ≤ 2 ^ 60 ∧
      div ≤ 9223372036854775807 ∧ 9223372036854775807 < 1024 * div ∧
      (∀ j : Nat, j ≤ exp.toNat → wrapInt64 (1024 ^ j * 1024) = 1024 ^ j * 1024) ∧
      "KMGTPE".data[exp.toNat]? = some unit ∧
      size2readable 9223372036854775807 = .ok (.scaled 9223372036854775807 div unit)) :=
  ⟨by norm_num, by norm_num, by decide,
    (size2readable_safe 9223372036854775807 (by norm_num) (by norm_num)).2 (by norm_num)⟩

end Scenario
